import Mathlib

/-!
# The multi-file log writer of `pkg/logs/multifile.go`

A shallow embedding of `multiFileLogWriter` and of its methods `Init`,
`Format`, `Destroy`, `WriteMsg` and `Flush`, followed by the properties of
the router that the specification states.

What `multifile.go` only uses is kept outside the embedding:

* `fileLogWriter` (its `Init`, `WriteMsg`, `Flush`, `Destroy`), `GetFormatter`
  and `encoding/json` are fields of an environment `Env`; a theorem quantified
  over `Env` holds whatever those do. The outcome of `fileLogWriter.Init` is a
  function of the configuration text it is given.
* A `*fileLogWriter` is a `Ref`: the address `newFileWriter` returned together
  with the three fields the router reads (`Level`, `fileNameOnly`, `suffix`).
  Two slots alias exactly when they hold the same address.
* Every call the router makes on a `fileLogWriter` is appended to the `World`,
  so that "calls once" and "calls on nothing else" are statements about a list.
-/

set_option autoImplicit false

namespace logs

/-! ## Data -/

/-- Go's `error` values; the nil error is `none : Option Error`. -/
abbrev Error := String

/-- Modelled from the spec: the constant `LevelEmergency` (declared in `log.go`), rank 0
of the eight severities, the most severe. -/
abbrev LevelEmergency : Nat := 0

/-- Modelled from the spec: the constant `LevelDebug` (declared in `log.go`), rank 7 of
the eight severities, the least severe. -/
abbrev LevelDebug : Nat := 7

/-- The array `levelNames`, indexed by rank. -/
def levelNames : Fin (LevelDebug + 1) → String :=
  !["emergency", "alert", "critical", "error", "warning", "notice", "info", "debug"]

/-- A Go `interface{}` value, as far as the router makes or moves one: the
`string` it stores under `filename`, the `int` it stores under `level`, and
what `json.Unmarshal` put into `jsonMap`, which the router never inspects. -/
inductive Value where
  /-- A Go `string`. -/
  | string (s : String)
  /-- A Go `int`. -/
  | int (n : Int)
  /-- A decoded JSON array of strings. -/
  | strings (xs : List String)
  /-- A Go `bool`. -/
  | bool (b : Bool)
  /-- The nil `interface{}`, as a decoded `null` is. -/
  | nil
  /-- A Go `float64` whose value is the integer `n`, as a decoded integer literal is. -/
  | float64 (n : Int)
  /-- Any other decoded JSON value (a nested slice or map, a number with a fraction),
  by its JSON text. -/
  | decoded (json : String)
  deriving DecidableEq, Repr

/-- The type `common.SimpleKV`. -/
structure SimpleKV where
  Key : String
  Value : Value
  deriving DecidableEq, Repr

/-- The fields of `LogMsg` that `multifile.go` reads. -/
structure LogMsg where
  Level : Int
  Msg : String
  deriving DecidableEq, Repr

/-- The fields of `fileLogWriter` that `multifile.go` reads. -/
structure fileLogWriter where
  Level : Int
  fileNameOnly : String
  suffix : String
  deriving DecidableEq, Repr

/-- A non-nil `*fileLogWriter`: the address `newFileWriter` returned and the
object found there. -/
structure Ref where
  addr : Nat
  obj : fileLogWriter
  deriving DecidableEq, Repr

/-- The struct `multiFileLogWriter`. `writers` has `LevelDebug + 1 + 1` slots,
the last one for the full writer; a nil pointer is `none`. -/
structure multiFileLogWriter where
  writers : Fin (LevelDebug + 1 + 1) → Option Ref
  fullLogWriter : Option Ref
  Separate : List String
  customFormatter : Option (LogMsg → String)

/-- The value `&multiFileLogWriter{}` that `newFilesWriter` returns. -/
def newFilesWriter : multiFileLogWriter :=
  { writers := fun _ => none, fullLogWriter := none, Separate := [], customFormatter := none }

/-- A Go `map[string]interface{}`, as the list of its entries; a key occurs at
most once in a map built by `GoMap.set` from the empty one. -/
abbrev GoMap := List (String × Value)

/-- The lookup `m[k]`. -/
def GoMap.get : GoMap → String → Option Value
  | [], _ => none
  | (k', v) :: rest, k => if k' = k then some v else GoMap.get rest k

/-- The assignment `m[k] = v`: the entry of `k` is replaced where it stands,
a new key is added. -/
def GoMap.set : GoMap → String → Value → GoMap
  | [], k, v => [(k, v)]
  | (k', v') :: rest, k, v => if k' = k then (k, v) :: rest else (k', v') :: GoMap.set rest k v

/-- One call made on a `fileLogWriter`, with the address of the receiver, the
arguments and, where the method returns one, the error it returned. -/
inductive Call (β : Type) where
  | Init (addr : Nat) (jsonConfig : β) (err : Option Error)
  | WriteMsg (addr : Nat) (lm : LogMsg) (err : Option Error)
  | Flush (addr : Nat)
  | Destroy (addr : Nat)
  deriving DecidableEq, Repr

/-- What lies outside the router: how many `fileLogWriter` objects
`newFileWriter` has allocated, and the calls made on them, oldest first. -/
structure World (β : Type) where
  next : Nat
  calls : List (Call β)
  deriving DecidableEq, Repr

/-- What `multifile.go` calls and does not define. `β` is the type of a
configuration text (a Go `string`). -/
structure Env (β : Type) where
  /-- The function `GetFormatter`. -/
  GetFormatter : SimpleKV → Except Error (LogMsg → String)
  /-- The method `(*fileLogWriter).Init` on the object `newFileWriter` has just
  made: the error, or the object as initialised. -/
  fileInit : β → Except Error fileLogWriter
  /-- The method `(*fileLogWriter).WriteMsg`: the error it returns. -/
  fileWriteMsg : Ref → LogMsg → Option Error
  /-- The call `json.Unmarshal([]byte(jsonConfig), f)`: `Separate` is the one field
  of `f` it can reach; given the old `f.Separate`, the new one and the error. -/
  unmarshalSeparate : β → List String → List String × Option Error
  /-- The call `json.Unmarshal([]byte(jsonConfig), &jsonMap)` on the empty map:
  the map after it and the error. (The text `null` would leave a nil map, on which
  an assignment panics; the loops assign only when `f.Separate` has an entry.) -/
  unmarshalMap : β → GoMap × Option Error
  /-- The text `string(bs)` for `bs, _ := json.Marshal(jsonMap)`. -/
  marshal : GoMap → β

/-- The statements `writer := newFileWriter().(*fileLogWriter)` and
`err := writer.Init(jsonConfig)`, seen from outside: one more object, one more call. -/
def World.newInit {β : Type} (w : World β) (jsonConfig : β) (err : Option Error) : World β :=
  { next := w.next + 1, calls := w.calls ++ [Call.Init w.next jsonConfig err] }

/-- One more call on an object that exists. -/
def World.call {β : Type} (w : World β) (c : Call β) : World β :=
  { w with calls := w.calls ++ [c] }

/-! ## `Init` -/

/-- The variables of `Init` that its loops change: the receiver `f`, the local
`jsonMap`, and the world. -/
structure St (β : Type) where
  f : multiFileLogWriter
  jsonMap : GoMap
  world : World β

/-- What a call of `Init` leaves: the error returned, the receiver, the world. -/
structure Result (β : Type) where
  err : Option Error
  f : multiFileLogWriter
  world : World β

/-- The expression `f.fullLogWriter.fileNameOnly + "." + levelNames[i] + f.fullLogWriter.suffix`. -/
def dedicatedFilename (full : fileLogWriter) (i : Fin (LevelDebug + 1)) : String :=
  full.fileNameOnly ++ "." ++ levelNames i ++ full.suffix

/-- The two assignments `jsonMap["filename"] = ...` and `jsonMap["level"] = i`. -/
def dedicatedMap (full : fileLogWriter) (jsonMap : GoMap) (i : Fin (LevelDebug + 1)) : GoMap :=
  (jsonMap.set "filename" (.string (dedicatedFilename full i))).set "level" (.int i.val)

/-- The loop `for _, elem := range opts` of `Init`: an error of `GetFormatter`
returns at once, with the formatters of the earlier elements already stored. -/
def Init.formatters {β : Type} (env : Env β) :
    List SimpleKV → multiFileLogWriter → Option Error × multiFileLogWriter
  | [], f => (none, f)
  | elem :: rest, f =>
    if elem.Key = "formatter" then
      match env.GetFormatter elem with
      | .error err => (some err, f)
      | .ok formatter => Init.formatters env rest { f with customFormatter := some formatter }
    else Init.formatters env rest f

/-- The loop `for _, v := range f.Separate` of `Init`, for one `i`. `full` is
`f.fullLogWriter`, which `Init` assigns before the loops and no loop reassigns.
The list is what is left of `f.Separate`. -/
def Init.separateLoop {β : Type} (env : Env β) (full : Ref) (i : Fin (LevelDebug + 1)) :
    List String → St β → Option Error × St β
  | [], s => (none, s)
  | v :: rest, s =>
    if v = levelNames i then
      let jsonMap := dedicatedMap full.obj s.jsonMap i
      let bs := env.marshal jsonMap
      match env.fileInit bs with
      | .error err => (some err, { s with jsonMap := jsonMap, world := s.world.newInit bs (some err) })
      | .ok obj =>
        Init.separateLoop env full i rest
          { f := { s.f with
                    writers := Function.update s.f.writers i.castSucc (some ⟨s.world.next, obj⟩) },
            jsonMap := jsonMap,
            world := s.world.newInit bs none }
    else Init.separateLoop env full i rest s

/-- The loop `for i := LevelEmergency; i < LevelDebug+1; i++` of `Init`; the
list is the values of `i` still to come, `List.finRange (LevelDebug + 1)` at the
start, which begins at `LevelEmergency`. -/
def Init.levelLoop {β : Type} (env : Env β) (full : Ref) :
    List (Fin (LevelDebug + 1)) → St β → Option Error × St β
  | [], s => (none, s)
  | i :: rest, s =>
    match Init.separateLoop env full i s.f.Separate s with
    | (some err, s) => (some err, s)
    | (none, s) => Init.levelLoop env full rest s

/-- The method `multiFileLogWriter.Init`. The errors of both `json.Unmarshal`
calls are dropped, as the source drops them. -/
def Init {β : Type} (env : Env β) (f : multiFileLogWriter) (jsonConfig : β)
    (opts : List SimpleKV) (w : World β) : Result β :=
  match Init.formatters env opts f with
  | (some err, f) => ⟨some err, f, w⟩
  | (none, f) =>
    match env.fileInit jsonConfig with
    | .error err => ⟨some err, f, w.newInit jsonConfig (some err)⟩
    | .ok obj =>
      let writer : Ref := ⟨w.next, obj⟩
      let w := w.newInit jsonConfig none
      let f := { f with fullLogWriter := some writer }
      let f := { f with writers := Function.update f.writers (Fin.last (LevelDebug + 1)) (some writer) }
      let f := { f with Separate := (env.unmarshalSeparate jsonConfig f.Separate).1 }
      let jsonMap := (env.unmarshalMap jsonConfig).1
      match Init.levelLoop env writer (List.finRange (LevelDebug + 1)) ⟨f, jsonMap, w⟩ with
      | (err, s) => ⟨err, s.f, s.world⟩

/-! ## `Format`, `Destroy`, `WriteMsg`, `Flush` -/

/-- The method `multiFileLogWriter.Format`. -/
def Format (_f : multiFileLogWriter) (lm : LogMsg) : String :=
  lm.Msg

/-- The method `multiFileLogWriter.Destroy`: the loop over all of `f.writers`. -/
def Destroy {β : Type} (f : multiFileLogWriter) (w : World β) : World β :=
  (List.finRange (LevelDebug + 1 + 1)).foldl
    (fun w i =>
      match f.writers i with
      | some writer => w.call (.Destroy writer.addr)
      | none => w)
    w

/-- The method `multiFileLogWriter.WriteMsg`: the full writer first, then the
loop `for i := 0; i < len(f.writers)-1; i++`. What the writers return is
recorded and not looked at; the method returns nil. -/
def WriteMsg {β : Type} (env : Env β) (f : multiFileLogWriter) (lm : LogMsg) (w : World β) :
    Option Error × World β :=
  let w :=
    match f.fullLogWriter with
    | some full => w.call (.WriteMsg full.addr lm (env.fileWriteMsg full lm))
    | none => w
  let w := (List.finRange (LevelDebug + 1)).foldl
    (fun w i =>
      match f.writers i.castSucc with
      | some writer =>
        if lm.Level = writer.obj.Level then
          w.call (.WriteMsg writer.addr lm (env.fileWriteMsg writer lm))
        else w
      | none => w)
    w
  (none, w)

/-- The method `multiFileLogWriter.Flush`: the loop over all of `f.writers`. -/
def Flush {β : Type} (f : multiFileLogWriter) (w : World β) : World β :=
  (List.finRange (LevelDebug + 1 + 1)).foldl
    (fun w i =>
      match f.writers i with
      | some writer => w.call (.Flush writer.addr)
      | none => w)
    w

/-! ## The two loops of `Init` as one list

The body of the inner loop runs once for every pair of an `i` and an entry of
`f.Separate` equal to `levelNames[i]`. `Init.plan` lists the `i` of those
pairs in the order of the loops, and `Init.run` runs the body along such a
list; `levelLoop_eq_run` shows that this is what the loops do. -/

/-- The values of `i` at which the body of the inner loop of `Init` runs, one
for every entry of `sep` equal to `levelNames[i]`, in the order of the loops. -/
def Init.plan (sep : List String) (is : List (Fin (LevelDebug + 1))) :
    List (Fin (LevelDebug + 1)) :=
  is.flatMap (fun i => (sep.filter (fun v => v = levelNames i)).map (fun _ => i))

/-- The body of the inner loop of `Init`, run for the values of `i` in the list
until a `fileLogWriter.Init` fails. -/
def Init.run {β : Type} (env : Env β) (full : Ref) :
    List (Fin (LevelDebug + 1)) → St β → Option Error × St β
  | [], s => (none, s)
  | i :: rest, s =>
    let jsonMap := dedicatedMap full.obj s.jsonMap i
    let bs := env.marshal jsonMap
    match env.fileInit bs with
    | .error err => (some err, { s with jsonMap := jsonMap, world := s.world.newInit bs (some err) })
    | .ok obj =>
      Init.run env full rest
        { f := { s.f with
                  writers := Function.update s.f.writers i.castSucc (some ⟨s.world.next, obj⟩) },
          jsonMap := jsonMap,
          world := s.world.newInit bs none }

/-- The configuration text that `Init` hands to the dedicated output of severity
`i`, from the full writer and the map decoded from the input. -/
def dedicatedConfig {β : Type} (env : Env β) (full : fileLogWriter) (jsonMap : GoMap)
    (i : Fin (LevelDebug + 1)) : β :=
  env.marshal (dedicatedMap full jsonMap i)

/-- The Go error of a result: nil on success. -/
def errOf {α : Type} : Except Error α → Option Error
  | .error err => some err
  | .ok _ => none

/-- The state after the body of the inner loop has stored a new writer in slot `i`. -/
def Init.stored {β : Type} (env : Env β) (full : Ref) (i : Fin (LevelDebug + 1))
    (obj : fileLogWriter) (s : St β) : St β :=
  { f := { s.f with
            writers := Function.update s.f.writers i.castSucc (some ⟨s.world.next, obj⟩) },
    jsonMap := dedicatedMap full.obj s.jsonMap i,
    world := s.world.newInit (env.marshal (dedicatedMap full.obj s.jsonMap i)) none }

/-- The state in which the body of the inner loop returns the error of a
`fileLogWriter.Init`. -/
def Init.failed {β : Type} (env : Env β) (full : Ref) (i : Fin (LevelDebug + 1))
    (err : Error) (s : St β) : St β :=
  { s with
    jsonMap := dedicatedMap full.obj s.jsonMap i,
    world := s.world.newInit (env.marshal (dedicatedMap full.obj s.jsonMap i)) (some err) }

/-- The state of `Init` when its loops start: the formatters are stored in `f`,
the full writer `obj` is in place and `separate` is decoded. -/
def Init.start {β : Type} (env : Env β) (f : multiFileLogWriter) (jsonConfig : β)
    (obj : fileLogWriter) (w : World β) : St β :=
  { f := { writers := Function.update f.writers (Fin.last (LevelDebug + 1)) (some ⟨w.next, obj⟩),
           fullLogWriter := some ⟨w.next, obj⟩,
           Separate := (env.unmarshalSeparate jsonConfig f.Separate).1,
           customFormatter := f.customFormatter },
    jsonMap := (env.unmarshalMap jsonConfig).1,
    world := w.newInit jsonConfig none }

/-- The address of the `fileLogWriter` on which a call is made. -/
def Call.addr {β : Type} : Call β → Nat
  | .Init a _ _ => a
  | .WriteMsg a _ _ => a
  | .Flush a => a
  | .Destroy a => a

/-- The outputs a message is to reach, in the words of the spec: the full
output, and the dedicated output of a slot 0..7 whose severity is the
message's. -/
def WriteMsg.targets (f : multiFileLogWriter) (lm : LogMsg) : List Ref :=
  f.fullLogWriter.toList ++
    (List.finRange (LevelDebug + 1)).filterMap
      (fun i => (f.writers i.castSucc).filter (fun writer => lm.Level = writer.obj.Level))

/-- Modelled from the spec: the file output is configured with the severity that the
key `level` of its configuration blob carries (`fileLogWriter.Init` of the absent
`file.go` decodes `level` into `Level`). Stated for the texts that `json.Marshal`
makes of a map, the only ones the router builds itself. -/
def LevelContract {β : Type} (env : Env β) : Prop :=
  ∀ (m : GoMap) (obj : fileLogWriter) (n : Int),
    env.fileInit (env.marshal m) = .ok obj → GoMap.get m "level" = some (.int n) → obj.Level = n

/-- The environment `env` with a decoder whose `separate` list lacks the entry `v`:
what `Init` sees when `v` is removed from the list and nothing else changes. -/
def Env.withoutEntry {β : Type} (env : Env β) (v : String) : Env β :=
  { env with
    unmarshalSeparate := fun text old =>
      ((env.unmarshalSeparate text old).1.filter (fun x => x ≠ v),
       (env.unmarshalSeparate text old).2) }

/-- The map `m` is `m0`, or `m0` after the assignments to `filename` and `level`. -/
def Touched (m0 m : GoMap) : Prop :=
  m = m0 ∨ ∃ a b, m = GoMap.set (GoMap.set m0 "filename" a) "level" b

/-! ## A sample environment

The file writer of `file.go` is not part of `multifile.go`. The environment
below stands in for it where a property is evaluated on a concrete
configuration. A configuration text is taken by what a JSON decoder makes of
it: `none` for a text that is not a JSON object, else the object. -/

/-- Modelled from the spec: the decomposition of the file name that the file output
reports (`file.go` is absent), "app.log" into base "app" and suffix ".log": the suffix
starts at the last dot. -/
def splitExt (name : String) : String × String :=
  let cs := name.toList
  let ext := (cs.reverse.takeWhile (fun c => c ≠ '.')).reverse
  if '.' ∈ cs then (String.mk (cs.take (cs.length - ext.length - 1)), String.mk ('.' :: ext))
  else (name, "")

/-- Modelled from the spec: `FileOutput.Initialize` (the method `fileLogWriter.Init` of
the absent `file.go`). The blob carries `filename` and, optionally, `level`; absence of
`level` accepts all levels. It fails on a text that is no JSON object, on a missing file
name, and on a file that cannot be opened (the names in `locked`). -/
def sampleFileInit (locked : List String) : Option GoMap → Except Error fileLogWriter
  | none => .error "invalid character"
  | some m =>
    match m.get "filename" with
    | some (.string name) =>
      if name = "" then .error "jsonconfig must have filename"
      else if name ∈ locked then .error "permission denied"
      else
        .ok { Level := match m.get "level" with
                       | some (.int n) => n
                       | _ => LevelDebug,
              fileNameOnly := (splitExt name).1,
              suffix := (splitExt name).2 }
    | _ => .error "jsonconfig must have filename"

/-- Modelled from the spec: an environment for `multifile.go` with the file output
`sampleFileInit locked`, one registered formatter named "plain", writes that succeed,
and a JSON decoder that reads the key `separate` and lets every key through. -/
def sampleEnv (locked : List String) : Env (Option GoMap) where
  GetFormatter := fun elem =>
    if elem.Value = .string "plain" then .ok (fun lm => lm.Msg) else .error "unknown formatter"
  fileInit := sampleFileInit locked
  fileWriteMsg := fun _ _ => none
  unmarshalSeparate := fun text old =>
    match text with
    | none => (old, some "invalid character")
    | some m =>
      match m.get "separate" with
      | some (.strings xs) => (xs, none)
      | some _ => (old, some "cannot unmarshal into Go struct field")
      | none => (old, none)
  unmarshalMap := fun text =>
    match text with
    | none => ([], some "invalid character")
    | some m => (m, none)
  marshal := fun m => some m

/-! ## The values of a configuration through `encoding/json`

`Init` decodes the configuration into a `map[string]interface{}` and encodes the
map again for every dedicated output. A number decoded into `interface{}` is a
`float64`. -/

/-- The value of a member of a configuration text: a JSON string, an integer
literal, a boolean, `null` or an array of strings; `raw` is any other value (a
number with a fraction or an exponent, a nested array or object), by its text. -/
inductive Json where
  | string (s : String)
  | number (n : Int)
  | bool (b : Bool)
  | null
  | strings (xs : List String)
  | raw (text : String)
  deriving DecidableEq, Repr

/-- The least `e` from `e` on with `m / 2 ^ e < 2 ^ 53`, within `fuel` steps. -/
def roundFloat64.exp : Nat → Nat → Nat → Nat
  | 0, _, e => e
  | fuel + 1, m, e => if m / 2 ^ e < 2 ^ 53 then e else roundFloat64.exp fuel m (e + 1)

/-- The `float64` nearest to the integer `n`, ties to the even significand of 53
bits: what `strconv.ParseFloat` makes of an integer literal (below 2^1024 in
magnitude; beyond, the decoder reports an error). -/
def roundFloat64 (n : Int) : Int :=
  let m := n.natAbs
  if m ≤ 2 ^ 53 then n
  else
    let e := roundFloat64.exp 1024 m 1
    let q := m / 2 ^ e
    let r := m % 2 ^ e
    let q' := if 2 ^ (e - 1) < r ∨ (r = 2 ^ (e - 1) ∧ q % 2 = 1) then q + 1 else q
    if n < 0 then -((q' * 2 ^ e : Nat) : Int) else ((q' * 2 ^ e : Nat) : Int)

/-- The JSON values that a `float64` holds exactly or that involve no number: a
string, a boolean, `null`, an array of strings, an integer of magnitude at most
2^53. -/
def Json.exact : Json → Bool
  | .string _ => true
  | .number n => decide (n.natAbs ≤ 2 ^ 53)
  | .bool _ => true
  | .null => true
  | .strings _ => true
  | .raw _ => false

/-- The configuration of the scenario: `filename` "app.log", `separate` error and debug. -/
def appConfig : Option GoMap :=
  some [("filename", .string "app.log"), ("separate", .strings ["error", "debug"])]

/-- The world before anything was allocated or called. -/
def World.empty {β : Type} : World β :=
  { next := 0, calls := [] }

/-- The router of the scenario: a new router after `Init` with `appConfig`. -/
def appRouter : Result (Option GoMap) :=
  Init (sampleEnv []) newFilesWriter appConfig [] World.empty

/-- The router of the failure scenario: a new router after `Init` with `appConfig`
when the file "app.debug.log" cannot be opened. -/
def lockedRouter : Result (Option GoMap) :=
  Init (sampleEnv ["app.debug.log"]) newFilesWriter appConfig [] World.empty

/-- One message at each of the eight severities. -/
def oneOfEach : List LogMsg :=
  (List.finRange (LevelDebug + 1)).map (fun i => { Level := i.val, Msg := levelNames i })

/-- The calls of `WriteMsg` for the messages of a list, one after the other. -/
def dispatch {β : Type} (env : Env β) (f : multiFileLogWriter) (msgs : List LogMsg)
    (w : World β) : World β :=
  msgs.foldl (fun w lm => (WriteMsg env f lm w).2) w

end logs

/-! ## Lemmas on maps -/

namespace logs

theorem GoMap.get_set_self (m : GoMap) (k : String) (v : Value) :
    GoMap.get (GoMap.set m k v) k = some v := by
  induction m with
  | nil => simp [GoMap.set, GoMap.get]
  | cons e rest ih =>
    obtain ⟨k', v'⟩ := e
    by_cases h : k' = k
    · simp [GoMap.set, GoMap.get, h]
    · simp [GoMap.set, GoMap.get, h, ih]

theorem GoMap.get_set_of_ne (m : GoMap) (k k' : String) (v : Value) (h : k ≠ k') :
    GoMap.get (GoMap.set m k v) k' = GoMap.get m k' := by
  induction m with
  | nil => simp [GoMap.set, GoMap.get, h]
  | cons e rest ih =>
    obtain ⟨k1, v1⟩ := e
    by_cases h1 : k1 = k
    · subst h1
      simp [GoMap.set, GoMap.get, h]
    · simp [GoMap.set, GoMap.get, h1, ih]

theorem GoMap.set_set (m : GoMap) (k : String) (v v' : Value) :
    GoMap.set (GoMap.set m k v) k v' = GoMap.set m k v' := by
  induction m with
  | nil => simp [GoMap.set]
  | cons e rest ih =>
    obtain ⟨k1, v1⟩ := e
    by_cases h1 : k1 = k
    · simp [GoMap.set, h1]
    · simp [GoMap.set, h1, ih]

theorem GoMap.set_four (m : GoMap) (k1 k2 : String) (a b c d : Value) (h : k1 ≠ k2) :
    GoMap.set (GoMap.set (GoMap.set (GoMap.set m k1 a) k2 b) k1 c) k2 d
      = GoMap.set (GoMap.set m k1 c) k2 d := by
  induction m with
  | nil => simp [GoMap.set, h, Ne.symm h]
  | cons e rest ih =>
    obtain ⟨k, v⟩ := e
    by_cases h1 : k = k1
    · subst h1
      simp [GoMap.set, h, GoMap.set_set]
    · by_cases h2 : k = k2
      · subst h2
        simp [GoMap.set, h1, GoMap.set_set]
      · simp [GoMap.set, h1, h2, ih]

theorem dedicatedMap_of_touched (full : fileLogWriter) (m0 m : GoMap) (i : Fin (LevelDebug + 1))
    (h : Touched m0 m) : dedicatedMap full m i = dedicatedMap full m0 i := by
  rcases h with rfl | ⟨a, b, rfl⟩
  · rfl
  · unfold dedicatedMap
    exact GoMap.set_four m0 "filename" "level" a b _ _ (by decide)

theorem touched_dedicatedMap (full : fileLogWriter) (m0 m : GoMap) (i : Fin (LevelDebug + 1))
    (h : Touched m0 m) : Touched m0 (dedicatedMap full m i) := by
  rw [dedicatedMap_of_touched full m0 m i h]
  exact Or.inr ⟨_, _, rfl⟩

theorem dedicatedMap_get_filename (full : fileLogWriter) (m : GoMap) (i : Fin (LevelDebug + 1)) :
    GoMap.get (dedicatedMap full m i) "filename" = some (.string (dedicatedFilename full i)) := by
  unfold dedicatedMap
  rw [GoMap.get_set_of_ne _ _ _ _ (by decide), GoMap.get_set_self]

theorem dedicatedMap_get_level (full : fileLogWriter) (m : GoMap) (i : Fin (LevelDebug + 1)) :
    GoMap.get (dedicatedMap full m i) "level" = some (.int i.val) := by
  unfold dedicatedMap
  rw [GoMap.get_set_self]

theorem Init.run_cons_ok {β : Type} (env : Env β) (full : Ref) (i : Fin (LevelDebug + 1))
    (rest : List (Fin (LevelDebug + 1))) (s : St β) (obj : fileLogWriter)
    (h : env.fileInit (env.marshal (dedicatedMap full.obj s.jsonMap i)) = .ok obj) :
    Init.run env full (i :: rest) s =
      Init.run env full rest
        { f := { s.f with
                  writers := Function.update s.f.writers i.castSucc (some ⟨s.world.next, obj⟩) },
          jsonMap := dedicatedMap full.obj s.jsonMap i,
          world := s.world.newInit (env.marshal (dedicatedMap full.obj s.jsonMap i)) none } := by
  simp only [Init.run, h]

theorem Init.run_cons_error {β : Type} (env : Env β) (full : Ref) (i : Fin (LevelDebug + 1))
    (rest : List (Fin (LevelDebug + 1))) (s : St β) (err : Error)
    (h : env.fileInit (env.marshal (dedicatedMap full.obj s.jsonMap i)) = .error err) :
    Init.run env full (i :: rest) s =
      (some err, { s with
        jsonMap := dedicatedMap full.obj s.jsonMap i,
        world := s.world.newInit (env.marshal (dedicatedMap full.obj s.jsonMap i)) (some err) }) := by
  simp only [Init.run, h]

theorem Init.run_append {β : Type} (env : Env β) (full : Ref)
    (l1 l2 : List (Fin (LevelDebug + 1))) (s : St β) :
    Init.run env full (l1 ++ l2) s =
      match Init.run env full l1 s with
      | (some err, s') => (some err, s')
      | (none, s') => Init.run env full l2 s' := by
  induction l1 generalizing s with
  | nil => simp [Init.run]
  | cons i rest ih =>
    cases h : env.fileInit (env.marshal (dedicatedMap full.obj s.jsonMap i)) with
    | error err =>
      rw [List.cons_append, Init.run_cons_error env full i _ s err h,
        Init.run_cons_error env full i _ s err h]
    | ok obj =>
      rw [List.cons_append, Init.run_cons_ok env full i _ s obj h,
        Init.run_cons_ok env full i _ s obj h, ih]

theorem Init.separateLoop_eq_run {β : Type} (env : Env β) (full : Ref)
    (i : Fin (LevelDebug + 1)) (vs : List String) (s : St β) :
    Init.separateLoop env full i vs s =
      Init.run env full ((vs.filter (fun v => v = levelNames i)).map (fun _ => i)) s := by
  induction vs generalizing s with
  | nil => simp [Init.separateLoop, Init.run]
  | cons v rest ih =>
    by_cases hv : v = levelNames i
    · cases h : env.fileInit (env.marshal (dedicatedMap full.obj s.jsonMap i)) with
      | error err =>
        simp only [Init.separateLoop, hv, if_true, h, List.filter_cons, decide_True, List.map_cons,
          Init.run]
      | ok obj =>
        simp only [Init.separateLoop, hv, if_true, h, List.filter_cons, decide_True, List.map_cons,
          Init.run, ih]
    · simp only [Init.separateLoop, hv, if_false, List.filter_cons, decide_False, ih]
      simp

theorem Init.run_frame {β : Type} (env : Env β) (full : Ref)
    (l : List (Fin (LevelDebug + 1))) (s : St β) :
    (Init.run env full l s).2.f.fullLogWriter = s.f.fullLogWriter
      ∧ (Init.run env full l s).2.f.Separate = s.f.Separate
      ∧ (Init.run env full l s).2.f.customFormatter = s.f.customFormatter
      ∧ (Init.run env full l s).2.f.writers (Fin.last (LevelDebug + 1))
          = s.f.writers (Fin.last (LevelDebug + 1)) := by
  induction l generalizing s with
  | nil => simp [Init.run]
  | cons i rest ih =>
    cases h : env.fileInit (env.marshal (dedicatedMap full.obj s.jsonMap i)) with
    | error err => rw [Init.run_cons_error env full i _ s err h]; simp
    | ok obj =>
      rw [Init.run_cons_ok env full i _ s obj h]
      obtain ⟨h1, h2, h3, h4⟩ := ih
        { f := { s.f with
                  writers := Function.update s.f.writers i.castSucc (some ⟨s.world.next, obj⟩) },
          jsonMap := dedicatedMap full.obj s.jsonMap i,
          world := s.world.newInit (env.marshal (dedicatedMap full.obj s.jsonMap i)) none }
      refine ⟨h1, h2, h3, ?_⟩
      rw [h4]
      exact Function.update_noteq (Ne.symm (Fin.castSucc_lt_last i).ne) _ _

theorem Init.levelLoop_eq_run {β : Type} (env : Env β) (full : Ref)
    (is : List (Fin (LevelDebug + 1))) (s : St β) :
    Init.levelLoop env full is s = Init.run env full (Init.plan s.f.Separate is) s := by
  induction is generalizing s with
  | nil => simp [Init.levelLoop, Init.plan, Init.run]
  | cons i rest ih =>
    have hplan : Init.plan s.f.Separate (i :: rest)
        = (s.f.Separate.filter (fun v => v = levelNames i)).map (fun _ => i)
          ++ Init.plan s.f.Separate rest := by
      simp [Init.plan]
    rw [hplan, Init.run_append, Init.levelLoop, Init.separateLoop_eq_run]
    have hsep := (Init.run_frame env full
      ((s.f.Separate.filter (fun v => v = levelNames i)).map (fun _ => i)) s).2.1
    rcases hr : Init.run env full
      ((s.f.Separate.filter (fun v => v = levelNames i)).map (fun _ => i)) s with ⟨e, s'⟩
    rw [hr] at hsep
    cases e with
    | some err => rfl
    | none =>
      simp only
      rw [ih s', hsep]

theorem Init.mem_plan (sep : List String) (is : List (Fin (LevelDebug + 1)))
    (j : Fin (LevelDebug + 1)) :
    j ∈ Init.plan sep is ↔ j ∈ is ∧ levelNames j ∈ sep := by
  simp only [Init.plan, List.mem_flatMap, List.mem_map, List.mem_filter, decide_eq_true_eq]
  constructor
  · rintro ⟨i, hi, v, ⟨hv, hvi⟩, rfl⟩
    exact ⟨hi, hvi ▸ hv⟩
  · rintro ⟨hj, hs⟩
    exact ⟨j, hj, levelNames j, ⟨hs, rfl⟩, rfl⟩

theorem Init.run_ok {β : Type} (env : Env β) (full : Ref) (i : Fin (LevelDebug + 1))
    (rest : List (Fin (LevelDebug + 1))) (s : St β) (obj : fileLogWriter)
    (h : env.fileInit (env.marshal (dedicatedMap full.obj s.jsonMap i)) = .ok obj) :
    Init.run env full (i :: rest) s = Init.run env full rest (Init.stored env full i obj s) :=
  Init.run_cons_ok env full i rest s obj h

theorem Init.run_error {β : Type} (env : Env β) (full : Ref) (i : Fin (LevelDebug + 1))
    (rest : List (Fin (LevelDebug + 1))) (s : St β) (err : Error)
    (h : env.fileInit (env.marshal (dedicatedMap full.obj s.jsonMap i)) = .error err) :
    Init.run env full (i :: rest) s = (some err, Init.failed env full i err s) :=
  Init.run_cons_error env full i rest s err h

theorem Init.run_not_mem {β : Type} (env : Env β) (full : Ref)
    (l : List (Fin (LevelDebug + 1))) (s : St β) (j : Fin (LevelDebug + 1)) (hj : j ∉ l) :
    (Init.run env full l s).2.f.writers j.castSucc = s.f.writers j.castSucc := by
  induction l generalizing s with
  | nil => simp [Init.run]
  | cons i rest ih =>
    have hji : j ≠ i := fun h => hj (h ▸ List.mem_cons_self _ _)
    have hjr : j ∉ rest := fun h => hj (List.mem_cons_of_mem _ h)
    cases h : env.fileInit (env.marshal (dedicatedMap full.obj s.jsonMap i)) with
    | error err => rw [Init.run_error env full i _ s err h]; rfl
    | ok obj =>
      rw [Init.run_ok env full i _ s obj h, ih _ hjr]
      exact Function.update_noteq (fun h => hji (Fin.castSucc_injective _ h)) _ _

theorem Init.run_isSome_mono {β : Type} (env : Env β) (full : Ref)
    (l : List (Fin (LevelDebug + 1))) (s : St β) (k : Fin (LevelDebug + 1 + 1))
    (hk : (s.f.writers k).isSome) : ((Init.run env full l s).2.f.writers k).isSome := by
  induction l generalizing s with
  | nil => simpa [Init.run] using hk
  | cons i rest ih =>
    cases h : env.fileInit (env.marshal (dedicatedMap full.obj s.jsonMap i)) with
    | error err => rw [Init.run_error env full i _ s err h]; exact hk
    | ok obj =>
      rw [Init.run_ok env full i _ s obj h]
      apply ih
      by_cases hki : k = i.castSucc
      · subst hki; simp [Init.stored]
      · simpa [Init.stored, Function.update_noteq hki] using hk

theorem Init.run_isSome_of_mem {β : Type} (env : Env β) (full : Ref)
    (l : List (Fin (LevelDebug + 1))) (s : St β) (hok : (Init.run env full l s).1 = none)
    (j : Fin (LevelDebug + 1)) (hj : j ∈ l) :
    ((Init.run env full l s).2.f.writers j.castSucc).isSome := by
  induction l generalizing s with
  | nil => simp at hj
  | cons i rest ih =>
    cases h : env.fileInit (env.marshal (dedicatedMap full.obj s.jsonMap i)) with
    | error err => rw [Init.run_error env full i _ s err h] at hok; simp at hok
    | ok obj =>
      rw [Init.run_ok env full i _ s obj h] at hok ⊢
      rcases List.mem_cons.1 hj with rfl | hjr
      · apply Init.run_isSome_mono
        simp [Init.stored]
      · exact ih _ hok hjr

theorem Init.run_touched {β : Type} (env : Env β) (full : Ref)
    (l : List (Fin (LevelDebug + 1))) (s : St β) (m0 : GoMap) (ht : Touched m0 s.jsonMap) :
    Touched m0 (Init.run env full l s).2.jsonMap := by
  induction l generalizing s with
  | nil => simpa [Init.run] using ht
  | cons i rest ih =>
    cases h : env.fileInit (env.marshal (dedicatedMap full.obj s.jsonMap i)) with
    | error err =>
      rw [Init.run_error env full i _ s err h]
      exact touched_dedicatedMap full.obj m0 s.jsonMap i ht
    | ok obj =>
      rw [Init.run_ok env full i _ s obj h]
      exact ih _ (touched_dedicatedMap full.obj m0 s.jsonMap i ht)

theorem Init.run_err {β : Type} (env : Env β) (full : Ref)
    (l : List (Fin (LevelDebug + 1))) (s : St β) (m0 : GoMap) (ht : Touched m0 s.jsonMap) :
    (Init.run env full l s).1 = none ↔
      ∀ i ∈ l, ∃ obj, env.fileInit (dedicatedConfig env full.obj m0 i) = .ok obj := by
  induction l generalizing s with
  | nil => simp [Init.run]
  | cons i rest ih =>
    have hD : env.marshal (dedicatedMap full.obj s.jsonMap i) = dedicatedConfig env full.obj m0 i := by
      rw [dedicatedConfig, dedicatedMap_of_touched full.obj m0 s.jsonMap i ht]
    cases h : env.fileInit (env.marshal (dedicatedMap full.obj s.jsonMap i)) with
    | error err =>
      rw [Init.run_error env full i _ s err h]
      rw [hD] at h
      simp [h]
    | ok obj =>
      rw [Init.run_ok env full i _ s obj h,
        ih (Init.stored env full i obj s) (touched_dedicatedMap full.obj m0 s.jsonMap i ht)]
      rw [hD] at h
      simp [h]

theorem Init.run_next_le {β : Type} (env : Env β) (full : Ref)
    (l : List (Fin (LevelDebug + 1))) (s : St β) :
    s.world.next ≤ (Init.run env full l s).2.world.next := by
  induction l generalizing s with
  | nil => simp [Init.run]
  | cons i rest ih =>
    cases h : env.fileInit (env.marshal (dedicatedMap full.obj s.jsonMap i)) with
    | error err => rw [Init.run_error env full i _ s err h]; simp [Init.failed, World.newInit]
    | ok obj =>
      rw [Init.run_ok env full i _ s obj h]
      exact le_trans (by simp [Init.stored, World.newInit]) (ih _)

theorem Init.run_calls {β : Type} (env : Env β) (full : Ref)
    (l : List (Fin (LevelDebug + 1))) (s : St β) (m0 : GoMap) (ht : Touched m0 s.jsonMap) :
    ∃ new, (Init.run env full l s).2.world.calls = s.world.calls ++ new ∧
      ∀ c ∈ new, ∃ i ∈ l, ∃ a, s.world.next ≤ a ∧ a < (Init.run env full l s).2.world.next ∧
        c = Call.Init a (dedicatedConfig env full.obj m0 i)
              (errOf (env.fileInit (dedicatedConfig env full.obj m0 i))) := by
  induction l generalizing s with
  | nil => exact ⟨[], by simp [Init.run], by simp⟩
  | cons i rest ih =>
    have hD : env.marshal (dedicatedMap full.obj s.jsonMap i) = dedicatedConfig env full.obj m0 i := by
      rw [dedicatedConfig, dedicatedMap_of_touched full.obj m0 s.jsonMap i ht]
    cases h : env.fileInit (env.marshal (dedicatedMap full.obj s.jsonMap i)) with
    | error err =>
      rw [Init.run_error env full i _ s err h]
      refine ⟨[Call.Init s.world.next (env.marshal (dedicatedMap full.obj s.jsonMap i)) (some err)],
        rfl, ?_⟩
      intro c hc
      rw [List.mem_singleton] at hc
      refine ⟨i, List.mem_cons_self _ _, s.world.next, le_refl _, ?_, ?_⟩
      · simp [Init.failed, World.newInit]
      · rw [hc, ← hD, h]; rfl
    | ok obj =>
      rw [Init.run_ok env full i _ s obj h]
      obtain ⟨new, hnew, hall⟩ :=
        ih (Init.stored env full i obj s) (touched_dedicatedMap full.obj m0 s.jsonMap i ht)
      have hle := Init.run_next_le env full rest (Init.stored env full i obj s)
      refine ⟨Call.Init s.world.next (env.marshal (dedicatedMap full.obj s.jsonMap i)) none :: new,
        ?_, ?_⟩
      · rw [hnew]; simp [Init.stored, World.newInit]
      · intro c hc
        rcases List.mem_cons.1 hc with rfl | hc
        · refine ⟨i, List.mem_cons_self _ _, s.world.next, le_refl _, ?_, ?_⟩
          · have : s.world.next + 1 ≤ _ := hle
            omega
          · rw [← hD, h]; rfl
        · obtain ⟨i', hi', a, ha1, ha2, hc'⟩ := hall c hc
          refine ⟨i', List.mem_cons_of_mem _ hi', a, ?_, ha2, hc'⟩
          have : s.world.next + 1 ≤ a := ha1
          omega

theorem Init.run_slot {β : Type} (env : Env β) (full : Ref)
    (l : List (Fin (LevelDebug + 1))) (s : St β) (m0 : GoMap) (ht : Touched m0 s.jsonMap)
    (j : Fin (LevelDebug + 1)) (writer : Ref)
    (hw : (Init.run env full l s).2.f.writers j.castSucc = some writer) :
    s.f.writers j.castSucc = some writer ∨
      (j ∈ l ∧ s.world.next ≤ writer.addr ∧ writer.addr < (Init.run env full l s).2.world.next ∧
        env.fileInit (dedicatedConfig env full.obj m0 j) = .ok writer.obj ∧
        Call.Init writer.addr (dedicatedConfig env full.obj m0 j) none
          ∈ (Init.run env full l s).2.world.calls) := by
  induction l generalizing s with
  | nil => left; simpa [Init.run] using hw
  | cons i rest ih =>
    have hD : env.marshal (dedicatedMap full.obj s.jsonMap i) = dedicatedConfig env full.obj m0 i := by
      rw [dedicatedConfig, dedicatedMap_of_touched full.obj m0 s.jsonMap i ht]
    cases h : env.fileInit (env.marshal (dedicatedMap full.obj s.jsonMap i)) with
    | error err =>
      rw [Init.run_error env full i _ s err h] at hw
      exact Or.inl hw
    | ok obj =>
      rw [Init.run_ok env full i _ s obj h] at hw ⊢
      have ht' := touched_dedicatedMap full.obj m0 s.jsonMap i ht
      have hle := Init.run_next_le env full rest (Init.stored env full i obj s)
      obtain ⟨new, hnew, -⟩ := Init.run_calls env full rest (Init.stored env full i obj s) m0 ht'
      rcases ih (Init.stored env full i obj s) ht' hw with h1 | ⟨h1, h2, h3, h4, h5⟩
      · by_cases hji : j = i
        · subst hji
          right
          have hwr : writer = ⟨s.world.next, obj⟩ := by
            have : some (Ref.mk s.world.next obj) = some writer := by
              simpa [Init.stored] using h1
            exact (Option.some.inj this).symm
          subst hwr
          refine ⟨List.mem_cons_self _ _, le_refl _, ?_, ?_, ?_⟩
          · have : s.world.next + 1 ≤ _ := hle
            exact this
          · rw [← hD]; exact h
          · rw [hnew, ← hD]
            simp [Init.stored, World.newInit]
        · left
          have hne : j.castSucc ≠ i.castSucc := fun h => hji (Fin.castSucc_injective _ h)
          simpa [Init.stored, Function.update_noteq hne] using h1
      · right
        refine ⟨List.mem_cons_of_mem _ h1, ?_, h3, h4, h5⟩
        have : s.world.next + 1 ≤ writer.addr := h2
        omega

/-! ## `Init` by cases -/

theorem Init.formatters_frame {β : Type} (env : Env β) (opts : List SimpleKV)
    (f : multiFileLogWriter) :
    (Init.formatters env opts f).2.writers = f.writers
      ∧ (Init.formatters env opts f).2.fullLogWriter = f.fullLogWriter
      ∧ (Init.formatters env opts f).2.Separate = f.Separate := by
  induction opts generalizing f with
  | nil => simp [Init.formatters]
  | cons elem rest ih =>
    by_cases hk : elem.Key = "formatter"
    · cases hg : env.GetFormatter elem with
      | error err => simp [Init.formatters, hk, hg]
      | ok formatter =>
        simp only [Init.formatters, hk, if_true, hg]
        exact ih _
    · simp only [Init.formatters, hk, if_false]
      exact ih _

theorem Init_of_formatters_error {β : Type} (env : Env β) (f : multiFileLogWriter)
    (jsonConfig : β) (opts : List SimpleKV) (w : World β) (err : Error)
    (h : (Init.formatters env opts f).1 = some err) :
    Init env f jsonConfig opts w = ⟨some err, (Init.formatters env opts f).2, w⟩ := by
  rcases hf : Init.formatters env opts f with ⟨e, f'⟩
  rw [hf] at h
  simp only at h
  subst h
  simp only [Init, hf]

theorem Init_of_full_error {β : Type} (env : Env β) (f : multiFileLogWriter)
    (jsonConfig : β) (opts : List SimpleKV) (w : World β) (err : Error)
    (h : (Init.formatters env opts f).1 = none) (hfull : env.fileInit jsonConfig = .error err) :
    Init env f jsonConfig opts w
      = ⟨some err, (Init.formatters env opts f).2, w.newInit jsonConfig (some err)⟩ := by
  rcases hf : Init.formatters env opts f with ⟨e, f'⟩
  rw [hf] at h
  simp only at h
  subst h
  simp only [Init, hf, hfull]

theorem Init_of_full_ok {β : Type} (env : Env β) (f : multiFileLogWriter)
    (jsonConfig : β) (opts : List SimpleKV) (w : World β) (obj : fileLogWriter)
    (h : (Init.formatters env opts f).1 = none) (hfull : env.fileInit jsonConfig = .ok obj) :
    Init env f jsonConfig opts w =
      ⟨(Init.run env ⟨w.next, obj⟩
          (Init.plan (env.unmarshalSeparate jsonConfig f.Separate).1 (List.finRange (LevelDebug + 1)))
          (Init.start env (Init.formatters env opts f).2 jsonConfig obj w)).1,
       (Init.run env ⟨w.next, obj⟩
          (Init.plan (env.unmarshalSeparate jsonConfig f.Separate).1 (List.finRange (LevelDebug + 1)))
          (Init.start env (Init.formatters env opts f).2 jsonConfig obj w)).2.f,
       (Init.run env ⟨w.next, obj⟩
          (Init.plan (env.unmarshalSeparate jsonConfig f.Separate).1 (List.finRange (LevelDebug + 1)))
          (Init.start env (Init.formatters env opts f).2 jsonConfig obj w)).2.world⟩ := by
  have hsep := (Init.formatters_frame env opts f).2.2
  rcases hf : Init.formatters env opts f with ⟨e, f'⟩
  rw [hf] at h hsep
  simp only at h hsep
  subst h
  simp only [Init, hf, hfull, Init.levelLoop_eq_run, Init.start, hsep]

theorem Init.start_writers_castSucc {β : Type} (env : Env β) (f : multiFileLogWriter)
    (jsonConfig : β) (obj : fileLogWriter) (w : World β) (i : Fin (LevelDebug + 1)) :
    (Init.start env f jsonConfig obj w).f.writers i.castSucc = f.writers i.castSucc := by
  simp only [Init.start]
  exact Function.update_noteq (Fin.castSucc_lt_last i).ne _ _

theorem Init.start_writers_last {β : Type} (env : Env β) (f : multiFileLogWriter)
    (jsonConfig : β) (obj : fileLogWriter) (w : World β) :
    (Init.start env f jsonConfig obj w).f.writers (Fin.last (LevelDebug + 1))
      = some ⟨w.next, obj⟩ := by
  simp only [Init.start, Function.update_same]

/-- The three ways `Init` can go. -/
theorem Init_cases {β : Type} (env : Env β) (f : multiFileLogWriter)
    (jsonConfig : β) (opts : List SimpleKV) :
    (∃ err, (Init.formatters env opts f).1 = some err)
      ∨ ((Init.formatters env opts f).1 = none ∧ ∃ err, env.fileInit jsonConfig = .error err)
      ∨ ((Init.formatters env opts f).1 = none ∧ ∃ obj, env.fileInit jsonConfig = .ok obj) := by
  cases h1 : (Init.formatters env opts f).1 with
  | some err => exact Or.inl ⟨err, rfl⟩
  | none =>
    cases h2 : env.fileInit jsonConfig with
    | error err => exact Or.inr (Or.inl ⟨rfl, err, rfl⟩)
    | ok obj => exact Or.inr (Or.inr ⟨rfl, obj, rfl⟩)

/-! ## The loops of `Flush`, `Destroy` and `WriteMsg` -/

theorem foldl_call {β ι : Type} (g : ι → Option (Call β)) (l : List ι) (w : World β) :
    l.foldl (fun w i => match g i with
                        | some c => w.call c
                        | none => w) w
      = { next := w.next, calls := w.calls ++ l.filterMap g } := by
  induction l generalizing w with
  | nil => simp
  | cons i rest ih =>
    rw [List.foldl_cons, ih]
    cases hg : g i with
    | none => simp [List.filterMap_cons, hg]
    | some c => simp [List.filterMap_cons, hg, World.call]

theorem Flush_eq {β : Type} (f : multiFileLogWriter) (w : World β) :
    Flush f w = { next := w.next,
                  calls := w.calls ++ (List.finRange (LevelDebug + 1 + 1)).filterMap
                    (fun i => (f.writers i).map (fun writer => Call.Flush writer.addr)) } := by
  rw [← foldl_call]
  unfold Flush
  congr 1
  funext w i
  cases f.writers i <;> rfl

theorem Destroy_eq {β : Type} (f : multiFileLogWriter) (w : World β) :
    Destroy f w = { next := w.next,
                    calls := w.calls ++ (List.finRange (LevelDebug + 1 + 1)).filterMap
                      (fun i => (f.writers i).map (fun writer => Call.Destroy writer.addr)) } := by
  rw [← foldl_call]
  unfold Destroy
  congr 1
  funext w i
  cases f.writers i <;> rfl

theorem WriteMsg_eq {β : Type} (env : Env β) (f : multiFileLogWriter) (lm : LogMsg)
    (w : World β) :
    WriteMsg env f lm w =
      (none, { next := w.next,
               calls := w.calls ++ (WriteMsg.targets f lm).map
                 (fun writer => Call.WriteMsg writer.addr lm (env.fileWriteMsg writer lm)) }) := by
  have hloop : ∀ w0 : World β,
      (List.finRange (LevelDebug + 1)).foldl
        (fun w i =>
          match f.writers i.castSucc with
          | some writer =>
            if lm.Level = writer.obj.Level then
              w.call (.WriteMsg writer.addr lm (env.fileWriteMsg writer lm))
            else w
          | none => w) w0
      = { next := w0.next,
          calls := w0.calls ++ ((List.finRange (LevelDebug + 1)).filterMap
            (fun i => (f.writers i.castSucc).filter
              (fun writer => lm.Level = writer.obj.Level))).map
            (fun writer => Call.WriteMsg writer.addr lm (env.fileWriteMsg writer lm)) } := by
    intro w0
    rw [List.map_filterMap, ← foldl_call]
    congr 1
    funext w1 i
    cases hw : f.writers i.castSucc with
    | none => simp [Option.filter]
    | some writer =>
      by_cases hl : lm.Level = writer.obj.Level
      · simp [Option.filter, hl]
      · simp [Option.filter, hl]
  unfold WriteMsg
  simp only [hloop, WriteMsg.targets]
  cases f.fullLogWriter with
  | none => simp
  | some full => simp [World.call]

theorem count_filterMap {ι : Type} (g : ι → Option Nat) (l : List ι) (a : Nat) :
    (l.filterMap g).count a = l.countP (fun i => g i = some a) := by
  induction l with
  | nil => simp
  | cons i rest ih =>
    cases hg : g i with
    | none => simp [List.filterMap_cons, hg, ih, List.countP_cons]
    | some b =>
      by_cases hb : b = a
      · simp [List.filterMap_cons, hg, ih, List.countP_cons, hb]
      · simp [List.filterMap_cons, hg, ih, List.countP_cons, hb, List.count_cons]

theorem countP_finRange_single {n : Nat} (p : Fin n → Bool) (s : Fin n)
    (hs : p s = true) (h : ∀ j, j ≠ s → p j = false) : (List.finRange n).countP p = 1 := by
  have : (List.finRange n).countP p = (List.finRange n).count s := by
    rw [List.count_eq_countP]
    apply List.countP_congr
    intro j _
    by_cases hj : j = s
    · subst hj; simp [hs]
    · simp [h j hj, hj]
  rw [this]
  exact List.count_eq_one_of_mem (List.nodup_finRange n) (List.mem_finRange s)

theorem filterMap_single {ι α : Type} (g : ι → Option α) (s : ι) (l : List ι)
    (hl : l.Nodup) (hs : s ∈ l) (h : ∀ j, j ≠ s → g j = none) :
    l.filterMap g = (g s).toList := by
  induction l with
  | nil => simp at hs
  | cons i rest ih =>
    have hnone : ∀ l' : List ι, s ∉ l' → l'.filterMap g = [] := by
      intro l' hl'
      rw [List.filterMap_eq_nil_iff]
      intro j hj
      exact h j (fun hjs => hl' (hjs ▸ hj))
    rw [List.nodup_cons] at hl
    by_cases his : i = s
    · subst his
      rw [List.filterMap_cons, hnone rest hl.1]
      cases g i <;> rfl
    · rw [List.filterMap_cons, h i his]
      exact ih hl.2 ((List.mem_cons.1 hs).resolve_left (Ne.symm his))

/-! ## `Init` on a new router -/

theorem Init_success {β : Type} (env : Env β) (f : multiFileLogWriter) (jsonConfig : β)
    (opts : List SimpleKV) (w : World β) (h : (Init env f jsonConfig opts w).err = none) :
    (Init.formatters env opts f).1 = none ∧ ∃ obj, env.fileInit jsonConfig = .ok obj := by
  rcases Init_cases env f jsonConfig opts with ⟨e, he⟩ | ⟨hf, e, he⟩ | ⟨hf, obj, ho⟩
  · rw [Init_of_formatters_error env _ _ _ _ e he] at h; simp at h
  · rw [Init_of_full_error env _ _ _ _ e hf he] at h; simp at h
  · exact ⟨hf, obj, ho⟩

/-- The state in which the loops of `Init` start on a new router. -/
theorem Init.start_new {β : Type} (env : Env β) (jsonConfig : β) (opts : List SimpleKV)
    (obj : fileLogWriter) (w : World β) :
    (Init.start env (Init.formatters env opts newFilesWriter).2 jsonConfig obj w).f.Separate
        = (env.unmarshalSeparate jsonConfig []).1
      ∧ (Init.start env (Init.formatters env opts newFilesWriter).2 jsonConfig obj w).f.fullLogWriter
        = some ⟨w.next, obj⟩
      ∧ (Init.start env (Init.formatters env opts newFilesWriter).2 jsonConfig obj w).world.next
        = w.next + 1
      ∧ (Init.start env (Init.formatters env opts newFilesWriter).2 jsonConfig obj w).world.calls
        = w.calls ++ [Call.Init w.next jsonConfig none]
      ∧ (Init.start env (Init.formatters env opts newFilesWriter).2 jsonConfig obj w).jsonMap
        = (env.unmarshalMap jsonConfig).1
      ∧ ∀ i : Fin (LevelDebug + 1),
        (Init.start env (Init.formatters env opts newFilesWriter).2 jsonConfig obj w).f.writers
          i.castSucc = none := by
  obtain ⟨hw, -, hsp⟩ := Init.formatters_frame env opts newFilesWriter
  refine ⟨?_, rfl, rfl, rfl, rfl, ?_⟩
  · simp only [Init.start, hsp]
    rfl
  · intro i
    rw [Init.start_writers_castSucc, hw]
    rfl

/-- What a successful `Init` on a new router leaves in the slots. -/
theorem Init_new_slots {β : Type} (env : Env β) (jsonConfig : β) (opts : List SimpleKV)
    (w : World β) (h : (Init env newFilesWriter jsonConfig opts w).err = none) :
    (Init env newFilesWriter jsonConfig opts w).f.writers (Fin.last (LevelDebug + 1)) ≠ none
      ∧ (Init env newFilesWriter jsonConfig opts w).f.writers (Fin.last (LevelDebug + 1))
          = (Init env newFilesWriter jsonConfig opts w).f.fullLogWriter
      ∧ (Init env newFilesWriter jsonConfig opts w).f.Separate
          = (env.unmarshalSeparate jsonConfig []).1
      ∧ ∀ i : Fin (LevelDebug + 1),
          (Init env newFilesWriter jsonConfig opts w).f.writers i.castSucc ≠ none
            ↔ levelNames i ∈ (Init env newFilesWriter jsonConfig opts w).f.Separate := by
  obtain ⟨hf, obj, ho⟩ := Init_success env _ _ _ _ h
  rw [Init_of_full_ok env _ _ _ _ obj hf ho] at h ⊢
  simp only at h ⊢
  obtain ⟨hsep, hfull, -, -, -, hnone⟩ := Init.start_new env jsonConfig opts obj w
  obtain ⟨h1, h2, -, h4⟩ := Init.run_frame env ⟨w.next, obj⟩
    (Init.plan (env.unmarshalSeparate jsonConfig newFilesWriter.Separate).1
      (List.finRange (LevelDebug + 1)))
    (Init.start env (Init.formatters env opts newFilesWriter).2 jsonConfig obj w)
  refine ⟨?_, ?_, ?_, ?_⟩
  · rw [h4, Init.start_writers_last]; simp
  · rw [h4, h1, Init.start_writers_last]; rfl
  · rw [h2, hsep]
  · intro i
    rw [h2, hsep]
    constructor
    · intro hne
      by_contra hni
      apply hne
      rw [Init.run_not_mem env _ _ _ i]
      · exact hnone i
      · rw [Init.mem_plan]
        exact fun hc => hni hc.2
    · intro hi
      have := Init.run_isSome_of_mem env _ _ _ h i
        ((Init.mem_plan _ _ i).2 ⟨List.mem_finRange i, hi⟩)
      exact Option.isSome_iff_ne_none.1 this

/-- Where the writer of a slot 0..7 comes from, after `Init` on a new router,
successful or not: it was allocated after the full writer, and initialised
without error from the dedicated configuration of its severity. -/
theorem Init_new_slot {β : Type} (env : Env β) (jsonConfig : β) (opts : List SimpleKV)
    (w : World β) (obj : fileLogWriter) (hf : (Init.formatters env opts newFilesWriter).1 = none)
    (ho : env.fileInit jsonConfig = .ok obj) (j : Fin (LevelDebug + 1)) (writer : Ref)
    (hw : (Init env newFilesWriter jsonConfig opts w).f.writers j.castSucc = some writer) :
    levelNames j ∈ (env.unmarshalSeparate jsonConfig []).1
      ∧ w.next < writer.addr
      ∧ env.fileInit (dedicatedConfig env obj (env.unmarshalMap jsonConfig).1 j) = .ok writer.obj
      ∧ Call.Init writer.addr (dedicatedConfig env obj (env.unmarshalMap jsonConfig).1 j) none
          ∈ (Init env newFilesWriter jsonConfig opts w).world.calls := by
  rw [Init_of_full_ok env _ _ _ _ obj hf ho] at hw ⊢
  simp only at hw ⊢
  obtain ⟨-, -, hnext, -, hmap, hnone⟩ := Init.start_new env jsonConfig opts obj w
  rcases Init.run_slot env ⟨w.next, obj⟩ _ _ (env.unmarshalMap jsonConfig).1
      (Or.inl hmap) j writer hw with h0 | ⟨h1, h2, -, h4, h5⟩
  · rw [hnone j] at h0
    simp at h0
  · rw [hnext] at h2
    exact ⟨((Init.mem_plan _ _ j).1 h1).2, h2, h4, h5⟩

/-- The full writer after a successful `Init` on a new router. -/
theorem Init_new_full {β : Type} (env : Env β) (jsonConfig : β) (opts : List SimpleKV)
    (w : World β) (obj : fileLogWriter) (hf : (Init.formatters env opts newFilesWriter).1 = none)
    (ho : env.fileInit jsonConfig = .ok obj) :
    (Init env newFilesWriter jsonConfig opts w).f.fullLogWriter = some ⟨w.next, obj⟩ := by
  rw [Init_of_full_ok env _ _ _ _ obj hf ho]
  simp only
  rw [(Init.run_frame env _ _ _).1]
  exact (Init.start_new env jsonConfig opts obj w).2.1

theorem sampleEnv_levelContract (locked : List String) : LevelContract (sampleEnv locked) := by
  intro m obj n h hl
  have h' : sampleFileInit locked (some m) = .ok obj := h
  simp only [sampleFileInit] at h'
  split at h'
  · split_ifs at h'
    injection h' with h'
    subst h'
    simp [hl]
  · cases h'

/-! ## What `Init` depends on -/

theorem Init.formatters_congr {β : Type} (env1 env2 : Env β)
    (h : env1.GetFormatter = env2.GetFormatter) (opts : List SimpleKV) (f : multiFileLogWriter) :
    Init.formatters env1 opts f = Init.formatters env2 opts f := by
  induction opts generalizing f with
  | nil => rfl
  | cons elem rest ih =>
    by_cases hk : elem.Key = "formatter"
    · cases hg : env2.GetFormatter elem with
      | error err => simp [Init.formatters, hk, h, hg]
      | ok formatter => simp [Init.formatters, hk, h, hg, ih]
    · simp [Init.formatters, hk, ih]

theorem Init.formatters_ok_iff {β : Type} (env : Env β) (opts : List SimpleKV)
    (f : multiFileLogWriter) :
    (Init.formatters env opts f).1 = none ↔
      ∀ elem ∈ opts, elem.Key = "formatter" → ∃ formatter, env.GetFormatter elem = .ok formatter := by
  induction opts generalizing f with
  | nil => simp [Init.formatters]
  | cons elem rest ih =>
    by_cases hk : elem.Key = "formatter"
    · cases hg : env.GetFormatter elem with
      | error err => simp [Init.formatters, hk, hg]
      | ok formatter => simp [Init.formatters, hk, hg, ih]
    · simp [Init.formatters, hk, ih]

theorem Init.run_congr {β : Type} (env1 env2 : Env β) (h1 : env1.fileInit = env2.fileInit)
    (h2 : env1.marshal = env2.marshal) (full : Ref) (l : List (Fin (LevelDebug + 1)))
    (s1 s2 : St β) (hw : s1.f.writers = s2.f.writers) (hm : s1.jsonMap = s2.jsonMap)
    (hwd : s1.world = s2.world) :
    (Init.run env1 full l s1).1 = (Init.run env2 full l s2).1
      ∧ (Init.run env1 full l s1).2.f.writers = (Init.run env2 full l s2).2.f.writers
      ∧ (Init.run env1 full l s1).2.jsonMap = (Init.run env2 full l s2).2.jsonMap
      ∧ (Init.run env1 full l s1).2.world = (Init.run env2 full l s2).2.world := by
  induction l generalizing s1 s2 with
  | nil => exact ⟨rfl, hw, hm, hwd⟩
  | cons i rest ih =>
    have hD : env1.marshal (dedicatedMap full.obj s1.jsonMap i)
        = env2.marshal (dedicatedMap full.obj s2.jsonMap i) := by rw [h2, hm]
    cases h : env1.fileInit (env1.marshal (dedicatedMap full.obj s1.jsonMap i)) with
    | error err =>
      have h' : env2.fileInit (env2.marshal (dedicatedMap full.obj s2.jsonMap i)) = .error err := by
        rw [← hD, ← h1]; exact h
      rw [Init.run_error env1 full i _ s1 err h, Init.run_error env2 full i _ s2 err h']
      refine ⟨rfl, hw, ?_, ?_⟩
      · simp only [Init.failed, hm]
      · simp only [Init.failed, hD, hwd]
    | ok obj =>
      have h' : env2.fileInit (env2.marshal (dedicatedMap full.obj s2.jsonMap i)) = .ok obj := by
        rw [← hD, ← h1]; exact h
      rw [Init.run_ok env1 full i _ s1 obj h, Init.run_ok env2 full i _ s2 obj h']
      apply ih
      · simp only [Init.stored, hw, hwd]
      · simp only [Init.stored, hm]
      · simp only [Init.stored, hD, hwd]

theorem Init.plan_filter (sep : List String) (is : List (Fin (LevelDebug + 1))) (v : String)
    (hv : ∀ i, levelNames i ≠ v) :
    Init.plan (sep.filter (fun x => x ≠ v)) is = Init.plan sep is := by
  unfold Init.plan
  congr 1
  funext i
  congr 1
  rw [List.filter_filter]
  congr 1
  funext x
  by_cases hx : x = levelNames i
  · subst hx; simp [hv i]
  · simp [hx]

theorem Init.run_call_of_mem {β : Type} (env : Env β) (full : Ref)
    (l : List (Fin (LevelDebug + 1))) (s : St β) (m0 : GoMap) (ht : Touched m0 s.jsonMap)
    (hok : (Init.run env full l s).1 = none) (i : Fin (LevelDebug + 1)) (hi : i ∈ l) :
    ∃ a, s.world.next ≤ a ∧
      Call.Init a (dedicatedConfig env full.obj m0 i) none ∈ (Init.run env full l s).2.world.calls := by
  induction l generalizing s with
  | nil => simp at hi
  | cons j rest ih =>
    have hD : env.marshal (dedicatedMap full.obj s.jsonMap j) = dedicatedConfig env full.obj m0 j := by
      rw [dedicatedConfig, dedicatedMap_of_touched full.obj m0 s.jsonMap j ht]
    cases h : env.fileInit (env.marshal (dedicatedMap full.obj s.jsonMap j)) with
    | error err => rw [Init.run_error env full j _ s err h] at hok; simp at hok
    | ok obj =>
      rw [Init.run_ok env full j _ s obj h] at hok ⊢
      have ht' := touched_dedicatedMap full.obj m0 s.jsonMap j ht
      rcases List.mem_cons.1 hi with rfl | hir
      · obtain ⟨new, hnew, -⟩ := Init.run_calls env full rest (Init.stored env full i obj s) m0 ht'
        refine ⟨s.world.next, le_refl _, ?_⟩
        rw [hnew, ← hD]
        simp [Init.stored, World.newInit]
      · obtain ⟨a, ha, hc⟩ := ih (Init.stored env full j obj s) ht' hok hir
        refine ⟨a, ?_, hc⟩
        have : s.world.next + 1 ≤ a := ha
        omega

/-- The calls of `Init` once the full output is initialised: its own call, then
calls with the dedicated configurations of severities named in `separate`; after
a successful `Init`, one for every such severity. -/
theorem Init_dedicated_calls {β : Type} (env : Env β) (f : multiFileLogWriter) (jsonConfig : β)
    (opts : List SimpleKV) (w : World β) (full : fileLogWriter)
    (hf : (Init.formatters env opts f).1 = none) (ho : env.fileInit jsonConfig = .ok full) :
    (Init env f jsonConfig opts w).f.Separate = (env.unmarshalSeparate jsonConfig f.Separate).1
      ∧ (∃ new, (Init env f jsonConfig opts w).world.calls
            = w.calls ++ Call.Init w.next jsonConfig none :: new ∧
          ∀ c ∈ new, ∃ i a, levelNames i ∈ (env.unmarshalSeparate jsonConfig f.Separate).1 ∧
            w.next < a ∧
            c = Call.Init a (dedicatedConfig env full (env.unmarshalMap jsonConfig).1 i)
                  (errOf (env.fileInit (dedicatedConfig env full (env.unmarshalMap jsonConfig).1 i))))
      ∧ ((Init env f jsonConfig opts w).err = none →
          ∀ i, levelNames i ∈ (env.unmarshalSeparate jsonConfig f.Separate).1 →
            ∃ a, w.next < a ∧
              Call.Init a (dedicatedConfig env full (env.unmarshalMap jsonConfig).1 i) none
                ∈ (Init env f jsonConfig opts w).world.calls) := by
  rw [Init_of_full_ok env _ _ _ _ full hf ho]
  simp only
  have hsep : (Init.start env (Init.formatters env opts f).2 jsonConfig full w).f.Separate
      = (env.unmarshalSeparate jsonConfig f.Separate).1 := by
    simp only [Init.start, (Init.formatters_frame env opts f).2.2]
  refine ⟨?_, ?_, ?_⟩
  · rw [(Init.run_frame _ _ _ _).2.1, hsep]
  · obtain ⟨new, hnew, hform⟩ := Init.run_calls env ⟨w.next, full⟩
      (Init.plan (env.unmarshalSeparate jsonConfig f.Separate).1 (List.finRange (LevelDebug + 1)))
      (Init.start env (Init.formatters env opts f).2 jsonConfig full w)
      (env.unmarshalMap jsonConfig).1 (Or.inl rfl)
    refine ⟨new, ?_, ?_⟩
    · rw [hnew]
      simp [Init.start, World.newInit]
    · intro c hc
      obtain ⟨i, hi, a, ha, -, hceq⟩ := hform c hc
      exact ⟨i, a, ((Init.mem_plan _ _ i).1 hi).2, ha, hceq⟩
  · intro hok i hi
    obtain ⟨a, ha, hc⟩ := Init.run_call_of_mem env ⟨w.next, full⟩ _ _
      (env.unmarshalMap jsonConfig).1 (Or.inl rfl) hok i
      ((Init.mem_plan _ _ i).2 ⟨List.mem_finRange i, hi⟩)
    exact ⟨a, ha, hc⟩

theorem levelNames_injective : Function.Injective levelNames := by
  decide

/-- A router with no writer at all reaches no output. -/
theorem empty_router_silent {β : Type} (env : Env β) (f : multiFileLogWriter)
    (hw : ∀ i, f.writers i = none) (hfull : f.fullLogWriter = none) (lm : LogMsg) (w : World β) :
    WriteMsg env f lm w = (none, w) ∧ Flush f w = w ∧ Destroy f w = w := by
  refine ⟨?_, ?_, ?_⟩
  · rw [WriteMsg_eq]
    have : WriteMsg.targets f lm = [] := by
      simp [WriteMsg.targets, hfull, hw, Option.filter]
    rw [this]
    simp
  · rw [Flush_eq]
    have : (List.finRange (LevelDebug + 1 + 1)).filterMap
        (fun i => (f.writers i).map (fun writer => (Call.Flush writer.addr : Call β))) = [] := by
      rw [List.filterMap_eq_nil_iff]
      intro i _
      simp [hw]
    rw [this]
    simp
  · rw [Destroy_eq]
    have : (List.finRange (LevelDebug + 1 + 1)).filterMap
        (fun i => (f.writers i).map (fun writer => (Call.Destroy writer.addr : Call β))) = [] := by
      rw [List.filterMap_eq_nil_iff]
      intro i _
      simp [hw]
    rw [this]
    simp

/-! ## The first failure of a dedicated output -/

theorem Init.plan_pairwise (sep : List String) (n : List (Fin (LevelDebug + 1)))
    (hn : n.Pairwise (fun a b => a < b)) :
    (Init.plan sep n).Pairwise (fun a b => a ≤ b) := by
  unfold Init.plan
  rw [List.pairwise_flatMap]
  constructor
  · intro i _
    rw [List.pairwise_map]
    exact List.pairwise_of_forall (fun _ _ => le_refl i)
  · refine hn.imp ?_
    intro a b hab x hx y hy
    rw [List.mem_map] at hx hy
    obtain ⟨_, _, rfl⟩ := hx
    obtain ⟨_, _, rfl⟩ := hy
    exact le_of_lt hab

theorem Init.run_split {β : Type} (env : Env β) (full : Ref)
    (l1 : List (Fin (LevelDebug + 1))) (j : Fin (LevelDebug + 1))
    (l2 : List (Fin (LevelDebug + 1))) (s : St β) (m0 : GoMap) (ht : Touched m0 s.jsonMap)
    (hok : ∀ i ∈ l1, ∃ obj, env.fileInit (dedicatedConfig env full.obj m0 i) = .ok obj)
    (err : Error) (hfail : env.fileInit (dedicatedConfig env full.obj m0 j) = .error err) :
    Init.run env full (l1 ++ j :: l2) s
      = (some err, Init.failed env full j err (Init.run env full l1 s).2) := by
  have h1 := (Init.run_err env full l1 s m0 ht).2 hok
  have ht' := Init.run_touched env full l1 s m0 ht
  rw [Init.run_append]
  rcases hr : Init.run env full l1 s with ⟨e, s'⟩
  rw [hr] at h1 ht'
  simp only at h1 ht'
  subst h1
  simp only
  apply Init.run_error
  rw [dedicatedMap_of_touched full.obj m0 s'.jsonMap j ht']
  exact hfail

/-- What `Init` on a new router leaves when the dedicated output of severity `j` is
the first one whose `Init` fails: the error of that call, the writers of the
severities named before `j` in their slots, and that call as the last one made. -/
theorem Init_first_failure {β : Type} (env : Env β) (jsonConfig : β) (opts : List SimpleKV)
    (w : World β) (full : fileLogWriter)
    (hf : (Init.formatters env opts newFilesWriter).1 = none)
    (ho : env.fileInit jsonConfig = .ok full) (j : Fin (LevelDebug + 1)) (err : Error)
    (hj : levelNames j ∈ (env.unmarshalSeparate jsonConfig []).1)
    (hfail : env.fileInit (dedicatedConfig env full (env.unmarshalMap jsonConfig).1 j)
      = .error err)
    (hbefore : ∀ i, i < j → levelNames i ∈ (env.unmarshalSeparate jsonConfig []).1 →
      ∃ obj, env.fileInit (dedicatedConfig env full (env.unmarshalMap jsonConfig).1 i) = .ok obj) :
    (Init env newFilesWriter jsonConfig opts w).err = some err
      ∧ (∀ i : Fin (LevelDebug + 1),
          (Init env newFilesWriter jsonConfig opts w).f.writers i.castSucc ≠ none
            ↔ levelNames i ∈ (env.unmarshalSeparate jsonConfig []).1 ∧ i < j)
      ∧ ∃ a, (Init env newFilesWriter jsonConfig opts w).world.calls.getLast?
          = some (Call.Init a (dedicatedConfig env full (env.unmarshalMap jsonConfig).1 j)
              (some err)) := by
  have hsepeq : (env.unmarshalSeparate jsonConfig newFilesWriter.Separate).1
      = (env.unmarshalSeparate jsonConfig []).1 := rfl
  rw [Init_of_full_ok env _ _ _ _ full hf ho, hsepeq]
  simp only
  obtain ⟨-, -, -, -, hmap, hnone⟩ := Init.start_new env jsonConfig opts full w
  have hjmem : j ∈ Init.plan (env.unmarshalSeparate jsonConfig []).1
      (List.finRange (LevelDebug + 1)) :=
    (Init.mem_plan _ _ j).2 ⟨List.mem_finRange j, hj⟩
  obtain ⟨l1, l2, hl, hjn⟩ := List.eq_append_cons_of_mem hjmem
  have hpw := Init.plan_pairwise (env.unmarshalSeparate jsonConfig []).1
    (List.finRange (LevelDebug + 1)) (List.pairwise_lt_finRange _)
  rw [hl, List.pairwise_append] at hpw
  obtain ⟨-, hpw2, hpw3⟩ := hpw
  have hl1 : ∀ i ∈ l1, levelNames i ∈ (env.unmarshalSeparate jsonConfig []).1 ∧ i < j := by
    intro i hi
    have himem : i ∈ Init.plan (env.unmarshalSeparate jsonConfig []).1
        (List.finRange (LevelDebug + 1)) := by
      rw [hl]
      exact List.mem_append_left _ hi
    refine ⟨((Init.mem_plan _ _ i).1 himem).2, lt_of_le_of_ne ?_ ?_⟩
    · exact hpw3 i hi j (List.mem_cons_self _ _)
    · intro hij
      exact hjn (hij ▸ hi)
  have hl1ok : ∀ i ∈ l1, ∃ obj,
      env.fileInit (dedicatedConfig env full (env.unmarshalMap jsonConfig).1 i) = .ok obj :=
    fun i hi => hbefore i (hl1 i hi).2 (hl1 i hi).1
  have hsplit := Init.run_split env ⟨w.next, full⟩ l1 j l2
    (Init.start env (Init.formatters env opts newFilesWriter).2 jsonConfig full w)
    (env.unmarshalMap jsonConfig).1 (Or.inl hmap) hl1ok err hfail
  have hrun1 := (Init.run_err env ⟨w.next, full⟩ l1
    (Init.start env (Init.formatters env opts newFilesWriter).2 jsonConfig full w)
    (env.unmarshalMap jsonConfig).1 (Or.inl hmap)).2 hl1ok
  have ht1 := Init.run_touched env ⟨w.next, full⟩ l1
    (Init.start env (Init.formatters env opts newFilesWriter).2 jsonConfig full w)
    (env.unmarshalMap jsonConfig).1 (Or.inl hmap)
  rw [hl, hsplit]
  refine ⟨rfl, ?_, ?_⟩
  · intro i
    have hw : (Init.failed env ⟨w.next, full⟩ j err
        (Init.run env ⟨w.next, full⟩ l1
          (Init.start env (Init.formatters env opts newFilesWriter).2 jsonConfig full w)).2).f.writers
          i.castSucc
        = (Init.run env ⟨w.next, full⟩ l1
            (Init.start env (Init.formatters env opts newFilesWriter).2 jsonConfig full w)).2.f.writers
            i.castSucc := rfl
    simp only
    rw [hw]
    constructor
    · intro hne
      by_contra hcon
      apply hne
      rw [Init.run_not_mem env _ _ _ i (fun hi => hcon (hl1 i hi))]
      exact hnone i
    · rintro ⟨hi, hij⟩
      have himem : i ∈ l1 ++ j :: l2 := by
        rw [← hl]
        exact (Init.mem_plan _ _ i).2 ⟨List.mem_finRange i, hi⟩
      have hin : i ∈ l1 := by
        rcases List.mem_append.1 himem with h | h
        · exact h
        · exfalso
          rcases List.mem_cons.1 h with h | h
          · exact absurd h (ne_of_lt hij)
          · have hji : j ≤ i := (List.pairwise_cons.1 hpw2).1 i h
            exact absurd hij (not_lt_of_le hji)
      exact Option.isSome_iff_ne_none.1 (Init.run_isSome_of_mem env _ _ _ hrun1 i hin)
  · refine ⟨(Init.run env ⟨w.next, full⟩ l1
      (Init.start env (Init.formatters env opts newFilesWriter).2 jsonConfig full w)).2.world.next, ?_⟩
    simp only [Init.failed, World.newInit, List.getLast?_concat]
    rw [dedicatedMap_of_touched full (env.unmarshalMap jsonConfig).1 _ j ht1]
    rfl

/-! ## Values through `encoding/json` -/

/-- C1. When `Init` on a new router returns nil, the full slot `writers[8]` is
non-nil and is `fullLogWriter`, `f.Separate` is the decoded `separate` list, and
slot `i` of the slots 0..7 is non-nil if and only if `levelNames[i]` is in that
list. So when the list names exactly the severities of a set `S`, the non-nil slots
among 0..7 are those of `S`; and when the list is empty (`separate` omitted), all
of them are nil and `WriteMsg` calls the full writer and nothing else. -/
theorem C1_slots_after_Init {β : Type} (env : Env β) (jsonConfig : β) (opts : List SimpleKV)
    (w : World β) (h : (Init env newFilesWriter jsonConfig opts w).err = none) :
    (Init env newFilesWriter jsonConfig opts w).f.writers (Fin.last (LevelDebug + 1)) ≠ none
      ∧ (Init env newFilesWriter jsonConfig opts w).f.writers (Fin.last (LevelDebug + 1))
          = (Init env newFilesWriter jsonConfig opts w).f.fullLogWriter
      ∧ (Init env newFilesWriter jsonConfig opts w).f.Separate
          = (env.unmarshalSeparate jsonConfig []).1
      ∧ (∀ i : Fin (LevelDebug + 1),
          (Init env newFilesWriter jsonConfig opts w).f.writers i.castSucc ≠ none
            ↔ levelNames i ∈ (Init env newFilesWriter jsonConfig opts w).f.Separate)
      ∧ (∀ S : Finset (Fin (LevelDebug + 1)),
          (∀ v, v ∈ (env.unmarshalSeparate jsonConfig []).1 ↔ ∃ i ∈ S, levelNames i = v) →
          ∀ i : Fin (LevelDebug + 1),
            (Init env newFilesWriter jsonConfig opts w).f.writers i.castSucc ≠ none ↔ i ∈ S)
      ∧ ((env.unmarshalSeparate jsonConfig []).1 = [] →
          (∀ i : Fin (LevelDebug + 1),
            (Init env newFilesWriter jsonConfig opts w).f.writers i.castSucc = none)
          ∧ ∀ (lm : LogMsg) (w' : World β),
              ∃ full, (Init env newFilesWriter jsonConfig opts w).f.fullLogWriter = some full ∧
                WriteMsg env (Init env newFilesWriter jsonConfig opts w).f lm w' =
                  (none, { next := w'.next,
                           calls := w'.calls ++
                             [Call.WriteMsg full.addr lm (env.fileWriteMsg full lm)] })) := by
  obtain ⟨h1, h2, h3, h4⟩ := Init_new_slots env jsonConfig opts w h
  refine ⟨h1, h2, h3, h4, ?_, ?_⟩
  · intro S hS i
    rw [h4 i, h3, hS]
    constructor
    · rintro ⟨j, hj, hji⟩
      exact levelNames_injective hji ▸ hj
    · intro hi
      exact ⟨i, hi, rfl⟩
  · intro hempty
    have hnone : ∀ i : Fin (LevelDebug + 1),
        (Init env newFilesWriter jsonConfig opts w).f.writers i.castSucc = none := by
      intro i
      by_contra hne
      have hmem := (h4 i).1 hne
      rw [h3, hempty] at hmem
      simp at hmem
    refine ⟨hnone, ?_⟩
    intro lm w'
    obtain ⟨full, hfull⟩ := Option.ne_none_iff_exists'.1 (h2 ▸ h1)
    refine ⟨full, hfull, ?_⟩
    rw [WriteMsg_eq]
    have htargets : WriteMsg.targets (Init env newFilesWriter jsonConfig opts w).f lm = [full] := by
      simp [WriteMsg.targets, hfull, hnone, Option.filter]
    rw [htargets]
    simp

/-- The statement of C1 on the scenario: `Init` with `appConfig` returns nil, and
slot 3 is populated exactly because "error" is listed. -/
theorem C1_slots_after_Init_witness :
    appRouter.err = none
      ∧ appRouter.f.writers (Fin.last (LevelDebug + 1)) ≠ none
      ∧ appRouter.f.writers (Fin.last (LevelDebug + 1)) = appRouter.f.fullLogWriter
      ∧ appRouter.f.Separate = ["error", "debug"]
      ∧ (∀ i : Fin (LevelDebug + 1),
          appRouter.f.writers i.castSucc ≠ none ↔ levelNames i ∈ appRouter.f.Separate)
      ∧ (∀ i : Fin (LevelDebug + 1), appRouter.f.writers i.castSucc ≠ none ↔ i = 3 ∨ i = 7) :=
  ⟨by decide, (C1_slots_after_Init (sampleEnv []) appConfig [] World.empty (by decide)).1,
    (C1_slots_after_Init (sampleEnv []) appConfig [] World.empty (by decide)).2.1,
    (C1_slots_after_Init (sampleEnv []) appConfig [] World.empty (by decide)).2.2.1,
    (C1_slots_after_Init (sampleEnv []) appConfig [] World.empty (by decide)).2.2.2.1,
    by decide⟩

/-- C2. After a successful `Init` on a new router, with a file output that takes its
severity from the key `level` of its configuration, `WriteMsg` for a message of
severity `s` makes exactly these calls: one `WriteMsg` on the full writer and, when
`levelNames[s]` is in `f.Separate`, one more on the writer of slot `s`, which is
another object; when it is not, no other call at all. -/
theorem C2_WriteMsg_fanout {β : Type} (env : Env β) (hc : LevelContract env) (jsonConfig : β)
    (opts : List SimpleKV) (w : World β)
    (h : (Init env newFilesWriter jsonConfig opts w).err = none)
    (lm : LogMsg) (s : Fin (LevelDebug + 1)) (hs : lm.Level = (s.val : Int)) (w' : World β) :
    ∃ full, (Init env newFilesWriter jsonConfig opts w).f.fullLogWriter = some full ∧
      (levelNames s ∈ (Init env newFilesWriter jsonConfig opts w).f.Separate →
        ∃ ded, (Init env newFilesWriter jsonConfig opts w).f.writers s.castSucc = some ded
          ∧ ded.addr ≠ full.addr
          ∧ WriteMsg env (Init env newFilesWriter jsonConfig opts w).f lm w' =
              (none, { next := w'.next,
                       calls := w'.calls ++
                         [Call.WriteMsg full.addr lm (env.fileWriteMsg full lm),
                          Call.WriteMsg ded.addr lm (env.fileWriteMsg ded lm)] }))
      ∧ (levelNames s ∉ (Init env newFilesWriter jsonConfig opts w).f.Separate →
          WriteMsg env (Init env newFilesWriter jsonConfig opts w).f lm w' =
            (none, { next := w'.next,
                     calls := w'.calls ++
                       [Call.WriteMsg full.addr lm (env.fileWriteMsg full lm)] })) := by
  obtain ⟨hf, obj, ho⟩ := Init_success env _ _ _ _ h
  have hfull := Init_new_full env jsonConfig opts w obj hf ho
  have hslots := (Init_new_slots env jsonConfig opts w h).2.2.2
  have hlev : ∀ (j : Fin (LevelDebug + 1)) (writer : Ref),
      (Init env newFilesWriter jsonConfig opts w).f.writers j.castSucc = some writer →
        writer.obj.Level = (j.val : Int) ∧ w.next < writer.addr := by
    intro j writer hw
    obtain ⟨-, h2, h3, -⟩ := Init_new_slot env jsonConfig opts w obj hf ho j writer hw
    exact ⟨hc _ _ _ h3 (dedicatedMap_get_level _ _ _), h2⟩
  have htargets : WriteMsg.targets (Init env newFilesWriter jsonConfig opts w).f lm
      = ⟨w.next, obj⟩ :: ((Init env newFilesWriter jsonConfig opts w).f.writers s.castSucc).toList := by
    unfold WriteMsg.targets
    rw [hfull, filterMap_single _ s _ (List.nodup_finRange _) (List.mem_finRange s)]
    · cases hw : (Init env newFilesWriter jsonConfig opts w).f.writers s.castSucc with
      | none => simp [Option.filter]
      | some writer => simp [Option.filter, (hlev s writer hw).1, hs]
    · intro j hj
      cases hw : (Init env newFilesWriter jsonConfig opts w).f.writers j.castSucc with
      | none => simp [Option.filter]
      | some writer =>
        have hne : ¬ ((s.val : Int) = (j.val : Int)) := by
          intro hc'
          exact hj (Fin.ext (by exact_mod_cast hc'.symm))
        simp [Option.filter, (hlev j writer hw).1, hs, hne]
  refine ⟨⟨w.next, obj⟩, hfull, ?_, ?_⟩
  · intro hin
    obtain ⟨ded, hded⟩ := Option.ne_none_iff_exists'.1 ((hslots s).2 hin)
    refine ⟨ded, hded, ?_, ?_⟩
    · exact Nat.ne_of_gt (hlev s ded hded).2
    · rw [WriteMsg_eq, htargets, hded]
      simp
  · intro hnin
    have hnone : (Init env newFilesWriter jsonConfig opts w).f.writers s.castSucc = none := by
      by_contra hne
      exact hnin ((hslots s).1 hne)
    rw [WriteMsg_eq, htargets, hnone]
    simp

/-- The statement of C2 on the scenario, for an "error" message, and the count
of the scenario: with `separate` error and debug, one message at each of the 8
severities makes 10 `WriteMsg` calls, 8 on the full writer (address 0), 1 on the
error writer (address 1) and 1 on the debug writer (address 2). -/
theorem C2_WriteMsg_fanout_witness :
    LevelContract (sampleEnv [])
      ∧ appRouter.err = none
      ∧ (∃ full, appRouter.f.fullLogWriter = some full ∧
          (levelNames 3 ∈ appRouter.f.Separate →
            ∃ ded, appRouter.f.writers (Fin.castSucc 3) = some ded
              ∧ ded.addr ≠ full.addr
              ∧ WriteMsg (sampleEnv []) appRouter.f ⟨3, "disk full"⟩ World.empty =
                  (none, { next := 0,
                           calls := [] ++
                             [Call.WriteMsg full.addr ⟨3, "disk full"⟩
                                ((sampleEnv []).fileWriteMsg full ⟨3, "disk full"⟩),
                              Call.WriteMsg ded.addr ⟨3, "disk full"⟩
                                ((sampleEnv []).fileWriteMsg ded ⟨3, "disk full"⟩)] }))
          ∧ (levelNames 3 ∉ appRouter.f.Separate →
              WriteMsg (sampleEnv []) appRouter.f ⟨3, "disk full"⟩ World.empty =
                (none, { next := 0,
                         calls := [] ++
                           [Call.WriteMsg full.addr ⟨3, "disk full"⟩
                              ((sampleEnv []).fileWriteMsg full ⟨3, "disk full"⟩)] })))
      ∧ ((dispatch (sampleEnv []) appRouter.f oneOfEach World.empty).calls.map Call.addr
          = [0, 0, 0, 0, 1, 0, 0, 0, 0, 2]
        ∧ (dispatch (sampleEnv []) appRouter.f oneOfEach World.empty).calls.length = 10
        ∧ ((dispatch (sampleEnv []) appRouter.f oneOfEach World.empty).calls.map Call.addr).count 0 = 8
        ∧ ((dispatch (sampleEnv []) appRouter.f oneOfEach World.empty).calls.map Call.addr).count 1 = 1
        ∧ ((dispatch (sampleEnv []) appRouter.f oneOfEach World.empty).calls.map Call.addr).count 2 = 1) :=
  ⟨sampleEnv_levelContract [], by decide,
    C2_WriteMsg_fanout (sampleEnv []) (sampleEnv_levelContract []) appConfig [] World.empty
      (by decide) ⟨3, "disk full"⟩ 3 rfl World.empty,
    by decide⟩

/-- C5. `Flush` makes one `Flush` call for each non-nil slot of `writers`, in
the order 0..8, and no other call; `Destroy` likewise. Neither looks at the field
`fullLogWriter`: when the full writer sits in slot 8 and in no other slot (as after
`Init`), it is flushed once and destroyed once. -/
theorem C5_Flush_Destroy_each_slot_once {β : Type} (f : multiFileLogWriter) (w : World β) :
    (Flush f w).next = w.next
      ∧ (Flush f w).calls = w.calls ++ (List.finRange (LevelDebug + 1 + 1)).filterMap
          (fun i => (f.writers i).map (fun writer => Call.Flush writer.addr))
      ∧ (Destroy f w).next = w.next
      ∧ (Destroy f w).calls = w.calls ++ (List.finRange (LevelDebug + 1 + 1)).filterMap
          (fun i => (f.writers i).map (fun writer => Call.Destroy writer.addr))
      ∧ ∀ full : Ref, f.writers (Fin.last (LevelDebug + 1)) = some full →
          (∀ (i : Fin (LevelDebug + 1)) (writer : Ref),
            f.writers i.castSucc = some writer → writer.addr ≠ full.addr) →
          (((Flush f w).calls.drop w.calls.length).map Call.addr).count full.addr = 1
            ∧ (((Destroy f w).calls.drop w.calls.length).map Call.addr).count full.addr = 1 := by
  have hcount : ∀ full : Ref, f.writers (Fin.last (LevelDebug + 1)) = some full →
      (∀ (i : Fin (LevelDebug + 1)) (writer : Ref),
        f.writers i.castSucc = some writer → writer.addr ≠ full.addr) →
      ((List.finRange (LevelDebug + 1 + 1)).filterMap
        (fun i => (f.writers i).map (fun writer => writer.addr))).count full.addr = 1 := by
    intro full hlast hdist
    rw [count_filterMap]
    apply countP_finRange_single _ (Fin.last (LevelDebug + 1))
    · simp [hlast]
    · intro j hj
      obtain ⟨i, rfl⟩ := Fin.exists_castSucc_eq.2 hj
      cases hw : f.writers i.castSucc with
      | none => simp
      | some writer => simpa using hdist i writer hw
  refine ⟨by rw [Flush_eq], by rw [Flush_eq], by rw [Destroy_eq], by rw [Destroy_eq], ?_⟩
  intro full hlast hdist
  constructor
  · rw [Flush_eq, List.drop_left, List.map_filterMap]
    refine Eq.trans ?_ (hcount full hlast hdist)
    congr 2
    funext i
    cases f.writers i <;> rfl
  · rw [Destroy_eq, List.drop_left, List.map_filterMap]
    refine Eq.trans ?_ (hcount full hlast hdist)
    congr 2
    funext i
    cases f.writers i <;> rfl

/-- The statement of C5 on the router of the scenario: three populated slots,
three `Flush` calls and three `Destroy` calls, one of each on the full writer. -/
theorem C5_Flush_Destroy_each_slot_once_witness :
    (Flush appRouter.f appRouter.world).calls.drop appRouter.world.calls.length
        = [Call.Flush 1, Call.Flush 2, Call.Flush 0]
      ∧ (Destroy appRouter.f appRouter.world).calls.drop appRouter.world.calls.length
        = [Call.Destroy 1, Call.Destroy 2, Call.Destroy 0]
      ∧ (((Flush appRouter.f appRouter.world).calls.drop appRouter.world.calls.length).map
            Call.addr).count 0 = 1
      ∧ (((Destroy appRouter.f appRouter.world).calls.drop appRouter.world.calls.length).map
            Call.addr).count 0 = 1 :=
  ⟨by decide, by decide,
    (C5_Flush_Destroy_each_slot_once appRouter.f appRouter.world).2.2.2.2 ⟨0, ⟨7, "app", ".log"⟩⟩
      (by decide) (by decide)⟩

/-- C7. `WriteMsg` returns nil whatever the `WriteMsg` of the underlying writers
returns, and the writers it calls are the targets of the message, which do not
depend on those results: with any other behaviour of the underlying `WriteMsg`
the same writers are called in the same order. -/
theorem C7_WriteMsg_best_effort {β : Type} (env : Env β) (f : multiFileLogWriter) (lm : LogMsg)
    (w : World β) :
    (WriteMsg env f lm w).1 = none
      ∧ (WriteMsg env f lm w).2.calls = w.calls ++ (WriteMsg.targets f lm).map
          (fun writer => Call.WriteMsg writer.addr lm (env.fileWriteMsg writer lm))
      ∧ ∀ result : Ref → LogMsg → Option Error,
          (WriteMsg { env with fileWriteMsg := result } f lm w).1 = none
            ∧ (WriteMsg { env with fileWriteMsg := result } f lm w).2.calls.map Call.addr
              = (WriteMsg env f lm w).2.calls.map Call.addr := by
  refine ⟨by rw [WriteMsg_eq], by rw [WriteMsg_eq], ?_⟩
  intro result
  rw [WriteMsg_eq, WriteMsg_eq]
  simp [List.map_map, Function.comp_def, Call.addr]

/-- C4. An entry `v` of `separate` that is none of the eight names in `levelNames`
(the comparison is `==` on strings, so "Error", "warn" and "" are such entries)
changes nothing: with the entry removed from the decoded list, `Init` returns the
same error or nil, leaves the same writers in the same slots, and makes the same
calls with the same configurations. -/
theorem C4_unknown_entries_ignored {β : Type} (env : Env β) (f : multiFileLogWriter)
    (jsonConfig : β) (opts : List SimpleKV) (w : World β) (v : String)
    (hv : ∀ i, levelNames i ≠ v) :
    (Init (env.withoutEntry v) f jsonConfig opts w).err = (Init env f jsonConfig opts w).err
      ∧ (Init (env.withoutEntry v) f jsonConfig opts w).f.writers
          = (Init env f jsonConfig opts w).f.writers
      ∧ (Init (env.withoutEntry v) f jsonConfig opts w).f.fullLogWriter
          = (Init env f jsonConfig opts w).f.fullLogWriter
      ∧ (Init (env.withoutEntry v) f jsonConfig opts w).world
          = (Init env f jsonConfig opts w).world := by
  have hfm := Init.formatters_congr (env.withoutEntry v) env rfl opts f
  rcases Init_cases env f jsonConfig opts with ⟨e, he⟩ | ⟨hf, e, he⟩ | ⟨hf, obj, ho⟩
  · rw [Init_of_formatters_error env _ _ _ _ e he,
      Init_of_formatters_error (env.withoutEntry v) _ _ _ _ e (hfm ▸ he), hfm]
    exact ⟨rfl, rfl, rfl, rfl⟩
  · rw [Init_of_full_error env _ _ _ _ e hf he,
      Init_of_full_error (env.withoutEntry v) _ _ _ _ e (hfm ▸ hf) he, hfm]
    exact ⟨rfl, rfl, rfl, rfl⟩
  · rw [Init_of_full_ok env _ _ _ _ obj hf ho,
      Init_of_full_ok (env.withoutEntry v) _ _ _ _ obj (hfm ▸ hf) ho, hfm]
    simp only
    have hplan : Init.plan ((env.withoutEntry v).unmarshalSeparate jsonConfig f.Separate).1
        (List.finRange (LevelDebug + 1))
        = Init.plan (env.unmarshalSeparate jsonConfig f.Separate).1
            (List.finRange (LevelDebug + 1)) :=
      Init.plan_filter _ _ v hv
    rw [hplan]
    obtain ⟨h1, h2, -, h4⟩ := Init.run_congr (env.withoutEntry v) env rfl rfl ⟨w.next, obj⟩
      (Init.plan (env.unmarshalSeparate jsonConfig f.Separate).1 (List.finRange (LevelDebug + 1)))
      (Init.start (env.withoutEntry v) (Init.formatters env opts f).2 jsonConfig obj w)
      (Init.start env (Init.formatters env opts f).2 jsonConfig obj w) rfl rfl rfl
    refine ⟨h1, h2, ?_, h4⟩
    rw [(Init.run_frame _ _ _ _).1, (Init.run_frame _ _ _ _).1]
    rfl

/-- The statement of C4 for the entry "Error", and the same on a concrete list:
`separate` with "Error", "warn" and "" besides "error" populates the slots that
`separate` with "error" alone populates, and returns nil as well. -/
theorem C4_unknown_entries_ignored_witness :
    (∀ i, levelNames i ≠ "Error")
      ∧ ((Init ((sampleEnv []).withoutEntry "Error") newFilesWriter
            (some [("filename", .string "app.log"),
                   ("separate", .strings ["Error", "error", "warn", ""])]) [] World.empty).err
          = (Init (sampleEnv []) newFilesWriter
              (some [("filename", .string "app.log"),
                     ("separate", .strings ["Error", "error", "warn", ""])]) [] World.empty).err)
      ∧ (Init (sampleEnv []) newFilesWriter
            (some [("filename", .string "app.log"),
                   ("separate", .strings ["Error", "error", "warn", ""])]) [] World.empty).err = none
      ∧ ∀ i, (Init (sampleEnv []) newFilesWriter
                (some [("filename", .string "app.log"),
                       ("separate", .strings ["Error", "error", "warn", ""])]) [] World.empty).f.writers i
              = (Init (sampleEnv []) newFilesWriter
                  (some [("filename", .string "app.log"),
                         ("separate", .strings ["error"])]) [] World.empty).f.writers i :=
  ⟨by decide,
    (C4_unknown_entries_ignored (sampleEnv []) newFilesWriter
      (some [("filename", .string "app.log"),
             ("separate", .strings ["Error", "error", "warn", ""])]) [] World.empty "Error"
      (by decide)).1,
    by decide, by decide⟩

/-- C6. `Init` returns a non-nil error when the full output's `Init` fails, and when
the `Init` of the dedicated output of a severity named in `separate` fails; no call
of an underlying `Init` that failed is left out of the result. Conversely, when
every `formatter` option resolves and the `Init` of the full output and of every
dedicated output succeeds, `Init` returns nil. -/
theorem C6_Init_errors {β : Type} (env : Env β) (f : multiFileLogWriter) (jsonConfig : β)
    (opts : List SimpleKV) (w : World β) :
    (∀ err, env.fileInit jsonConfig = .error err → (Init env f jsonConfig opts w).err ≠ none)
      ∧ (∀ full, env.fileInit jsonConfig = .ok full →
          ∀ i, levelNames i ∈ (env.unmarshalSeparate jsonConfig f.Separate).1 →
            ∀ err, env.fileInit (dedicatedConfig env full (env.unmarshalMap jsonConfig).1 i)
                = .error err →
              (Init env f jsonConfig opts w).err ≠ none)
      ∧ (∀ a text err, Call.Init a text (some err) ∈ (Init env f jsonConfig opts w).world.calls →
          Call.Init a text (some err) ∉ w.calls → (Init env f jsonConfig opts w).err ≠ none)
      ∧ ((∀ elem ∈ opts, elem.Key = "formatter" →
            ∃ formatter, env.GetFormatter elem = .ok formatter) →
          ∀ full, env.fileInit jsonConfig = .ok full →
            (∀ i, levelNames i ∈ (env.unmarshalSeparate jsonConfig f.Separate).1 →
              ∃ obj, env.fileInit (dedicatedConfig env full (env.unmarshalMap jsonConfig).1 i)
                = .ok obj) →
            (Init env f jsonConfig opts w).err = none) := by
  have hrun : ∀ full, (Init.formatters env opts f).1 = none → env.fileInit jsonConfig = .ok full →
      ((Init env f jsonConfig opts w).err = none ↔
        ∀ i, levelNames i ∈ (env.unmarshalSeparate jsonConfig f.Separate).1 →
          ∃ obj, env.fileInit (dedicatedConfig env full (env.unmarshalMap jsonConfig).1 i)
            = .ok obj) := by
    intro full hf ho
    rw [Init_of_full_ok env _ _ _ _ full hf ho]
    simp only
    rw [Init.run_err env ⟨w.next, full⟩ _ _ (env.unmarshalMap jsonConfig).1 (Or.inl rfl)]
    constructor
    · intro h i hi
      exact h i ((Init.mem_plan _ _ i).2 ⟨List.mem_finRange i, hi⟩)
    · intro h i hi
      exact h i ((Init.mem_plan _ _ i).1 hi).2
  refine ⟨?_, ?_, ?_, ?_⟩
  · intro err he
    rcases Init_cases env f jsonConfig opts with ⟨e, h1⟩ | ⟨hf, e, h1⟩ | ⟨hf, obj, ho⟩
    · rw [Init_of_formatters_error env _ _ _ _ e h1]; simp
    · rw [Init_of_full_error env _ _ _ _ e hf h1]; simp
    · rw [he] at ho; cases ho
  · intro full ho i hi err he
    rcases Init_cases env f jsonConfig opts with ⟨e, h1⟩ | ⟨hf, e, h1⟩ | ⟨hf, obj, -⟩
    · rw [Init_of_formatters_error env _ _ _ _ e h1]; simp
    · rw [Init_of_full_error env _ _ _ _ e hf h1]; simp
    · intro hnone
      obtain ⟨obj', ho'⟩ := (hrun full hf ho).1 hnone i hi
      rw [he] at ho'
      cases ho'
  · intro a text err hin hnot hnone
    obtain ⟨hf, full, ho⟩ := Init_success env _ _ _ _ hnone
    have hall := (hrun full hf ho).1 hnone
    rw [Init_of_full_ok env _ _ _ _ full hf ho] at hin
    simp only at hin
    obtain ⟨new, hnew, hform⟩ := Init.run_calls env ⟨w.next, full⟩
      (Init.plan (env.unmarshalSeparate jsonConfig f.Separate).1 (List.finRange (LevelDebug + 1)))
      (Init.start env (Init.formatters env opts f).2 jsonConfig full w)
      (env.unmarshalMap jsonConfig).1 (Or.inl rfl)
    rw [hnew] at hin
    rcases List.mem_append.1 hin with hin | hin
    · have hst : (Init.start env (Init.formatters env opts f).2 jsonConfig full w).world.calls
          = w.calls ++ [Call.Init w.next jsonConfig none] := rfl
      rw [hst] at hin
      rcases List.mem_append.1 hin with hin | hin
      · exact hnot hin
      · simp at hin
    · obtain ⟨i, hi, a', -, -, hc⟩ := hform _ hin
      obtain ⟨obj, hobj⟩ := hall i ((Init.mem_plan _ _ i).1 hi).2
      rw [hobj] at hc
      simp [errOf] at hc
  · intro hfm full ho hall
    exact (hrun full ((Init.formatters_ok_iff env opts f).2 hfm) ho).2 hall

/-- The statement of C6 on the scenario: with a debug file that cannot be opened
`Init` returns an error, and with every file writable it returns nil. -/
theorem C6_Init_errors_witness :
    lockedRouter.err ≠ none ∧ appRouter.err = none :=
  ⟨(C6_Init_errors (sampleEnv ["app.debug.log"]) newFilesWriter appConfig [] World.empty).2.1
      ⟨7, "app", ".log"⟩ rfl 7 (by decide) "permission denied" rfl,
    (C6_Init_errors (sampleEnv []) newFilesWriter appConfig [] World.empty).2.2.2
      (by simp) ⟨7, "app", ".log"⟩ rfl
      (by
        intro i hi
        have hcases : i = 3 ∨ i = 7 := by
          revert hi
          revert i
          decide
        rcases hcases with rfl | rfl
        · exact ⟨_, rfl⟩
        · exact ⟨_, rfl⟩)⟩

/-- C3. Once the full output is initialised, every further configuration that
`Init` hands to an output is that of a severity `i` named in `separate`, and its
`filename` is the full output's `fileNameOnly`, then ".", then `levelNames[i]`,
then the full output's `suffix`; after a successful `Init` there is such a call for
every severity named in `separate`. The name depends on the full output through
`fileNameOnly` and `suffix` only, and for "app", ".log" and `error` it is
"app.error.log". -/
theorem C3_dedicated_filename {β : Type} (env : Env β) (f : multiFileLogWriter) (jsonConfig : β)
    (opts : List SimpleKV) (w : World β) (full : fileLogWriter)
    (hf : ∀ elem ∈ opts, elem.Key = "formatter" →
      ∃ formatter, env.GetFormatter elem = .ok formatter)
    (ho : env.fileInit jsonConfig = .ok full) :
    (∃ new, (Init env f jsonConfig opts w).world.calls
          = w.calls ++ Call.Init w.next jsonConfig none :: new ∧
        ∀ c ∈ new, ∃ i a m err, levelNames i ∈ (Init env f jsonConfig opts w).f.Separate ∧
          c = Call.Init a (env.marshal m) err ∧
          GoMap.get m "filename"
            = some (.string (full.fileNameOnly ++ "." ++ levelNames i ++ full.suffix)))
      ∧ ((Init env f jsonConfig opts w).err = none →
          ∀ i, levelNames i ∈ (Init env f jsonConfig opts w).f.Separate →
            ∃ a m, w.next < a ∧
              Call.Init a (env.marshal m) none ∈ (Init env f jsonConfig opts w).world.calls ∧
              GoMap.get m "filename"
                = some (.string (full.fileNameOnly ++ "." ++ levelNames i ++ full.suffix)))
      ∧ (∀ (other : fileLogWriter) (i : Fin (LevelDebug + 1)),
          other.fileNameOnly = full.fileNameOnly → other.suffix = full.suffix →
            dedicatedFilename other i = dedicatedFilename full i)
      ∧ (full.fileNameOnly = "app" → full.suffix = ".log" →
          levelNames 3 = "error" ∧ dedicatedFilename full 3 = "app.error.log") := by
  have hf' := (Init.formatters_ok_iff env opts f).2 hf
  obtain ⟨hsep, ⟨new, hnew, hform⟩, hall⟩ := Init_dedicated_calls env f jsonConfig opts w full hf' ho
  refine ⟨⟨new, hnew, ?_⟩, ?_, ?_, ?_⟩
  · intro c hc
    obtain ⟨i, a, hi, -, hceq⟩ := hform c hc
    exact ⟨i, a, _, _, hsep ▸ hi, hceq, dedicatedMap_get_filename _ _ _⟩
  · intro hok i hi
    obtain ⟨a, ha, hc⟩ := hall hok i (hsep ▸ hi)
    exact ⟨a, _, ha, hc, dedicatedMap_get_filename _ _ _⟩
  · intro other i h1 h2
    simp only [dedicatedFilename, h1, h2]
  · intro h1 h2
    refine ⟨by decide, ?_⟩
    simp only [dedicatedFilename, h1, h2]
    decide

/-- The statement of C3 on the scenario: for "app.log" the output of `error` is
given the file name "app.error.log". -/
theorem C3_dedicated_filename_witness :
    (∀ elem ∈ ([] : List SimpleKV), elem.Key = "formatter" →
        ∃ formatter, (sampleEnv []).GetFormatter elem = .ok formatter)
      ∧ (sampleEnv []).fileInit appConfig = .ok ⟨7, "app", ".log"⟩
      ∧ (∃ a m, 0 < a ∧
          Call.Init a ((sampleEnv []).marshal m) none ∈ appRouter.world.calls ∧
          GoMap.get m "filename" = some (.string ("app" ++ "." ++ levelNames 3 ++ ".log")))
      ∧ dedicatedFilename ⟨7, "app", ".log"⟩ 3 = "app.error.log" :=
  ⟨by simp, rfl,
    (C3_dedicated_filename (sampleEnv []) newFilesWriter appConfig [] World.empty
      ⟨7, "app", ".log"⟩ (by simp) rfl).2.1 (by decide) 3 (by decide),
    by decide⟩

/-- C8, the claim as stated fails: with `separate` error and debug and a debug file
that cannot be opened, `Init` on a new router returns the error and leaves the full
writer in `fullLogWriter` and slot 8 and the error writer in slot 3; `Flush` and
`WriteMsg` then reach them. -/
theorem C8_counterexample :
    lockedRouter.err = some "permission denied"
      ∧ ¬ ((∀ i, lockedRouter.f.writers i = none) ∧ lockedRouter.f.fullLogWriter = none)
      ∧ lockedRouter.f.fullLogWriter = some ⟨0, ⟨7, "app", ".log"⟩⟩
      ∧ lockedRouter.f.writers (Fin.last (LevelDebug + 1)) = some ⟨0, ⟨7, "app", ".log"⟩⟩
      ∧ lockedRouter.f.writers (Fin.castSucc 3) = some ⟨1, ⟨3, "app.error", ".log"⟩⟩
      ∧ (Flush lockedRouter.f (World.empty : World (Option GoMap))).calls
          = [Call.Flush 1, Call.Flush 0]
      ∧ (WriteMsg (sampleEnv ["app.debug.log"]) lockedRouter.f ⟨3, "disk full"⟩ World.empty).2.calls
          = [Call.WriteMsg 0 ⟨3, "disk full"⟩ none, Call.WriteMsg 1 ⟨3, "disk full"⟩ none] := by
  decide

/-- C8, amended. When `Init` on a new router fails before an output is stored -- a
`formatter` option does not resolve, or the full output's `Init` fails -- it returns
the error with every slot of `writers` and `fullLogWriter` still nil, and `WriteMsg`,
`Flush` and `Destroy` then reach no output. Once the full output is initialised it
is stored in `fullLogWriter` and slot 8 and stays there whatever `Init` returns.
When the dedicated output of severity `j` is the first whose `Init` fails, `Init`
returns that error at once, the failing call being the last one made, and undoes
nothing: the full writer is in `fullLogWriter` and slot 8, and a slot `i` of 0..7 is
non-nil exactly for the severities named in `separate` that come before `j`. -/
theorem C8_failed_Init_state {β : Type} (env : Env β) (jsonConfig : β) (opts : List SimpleKV)
    (w : World β) :
    (((∃ elem ∈ opts, elem.Key = "formatter" ∧ ∃ err, env.GetFormatter elem = .error err)
        ∨ ∃ err, env.fileInit jsonConfig = .error err) →
      (Init env newFilesWriter jsonConfig opts w).err ≠ none
        ∧ (∀ i, (Init env newFilesWriter jsonConfig opts w).f.writers i = none)
        ∧ (Init env newFilesWriter jsonConfig opts w).f.fullLogWriter = none
        ∧ ∀ (lm : LogMsg) (w' : World β),
            WriteMsg env (Init env newFilesWriter jsonConfig opts w).f lm w' = (none, w')
              ∧ Flush (Init env newFilesWriter jsonConfig opts w).f w' = w'
              ∧ Destroy (Init env newFilesWriter jsonConfig opts w).f w' = w')
      ∧ ((∀ elem ∈ opts, elem.Key = "formatter" →
            ∃ formatter, env.GetFormatter elem = .ok formatter) →
          ∀ full, env.fileInit jsonConfig = .ok full →
            (Init env newFilesWriter jsonConfig opts w).f.fullLogWriter = some ⟨w.next, full⟩
              ∧ (Init env newFilesWriter jsonConfig opts w).f.writers (Fin.last (LevelDebug + 1))
                  = some ⟨w.next, full⟩)
      ∧ ((∀ elem ∈ opts, elem.Key = "formatter" →
            ∃ formatter, env.GetFormatter elem = .ok formatter) →
          ∀ full, env.fileInit jsonConfig = .ok full →
          ∀ (j : Fin (LevelDebug + 1)) (err : Error),
            levelNames j ∈ (env.unmarshalSeparate jsonConfig []).1 →
            env.fileInit (dedicatedConfig env full (env.unmarshalMap jsonConfig).1 j)
              = .error err →
            (∀ i, i < j → levelNames i ∈ (env.unmarshalSeparate jsonConfig []).1 →
              ∃ obj, env.fileInit (dedicatedConfig env full (env.unmarshalMap jsonConfig).1 i)
                = .ok obj) →
            (Init env newFilesWriter jsonConfig opts w).err = some err
              ∧ (Init env newFilesWriter jsonConfig opts w).f.fullLogWriter = some ⟨w.next, full⟩
              ∧ (Init env newFilesWriter jsonConfig opts w).f.writers (Fin.last (LevelDebug + 1))
                  = some ⟨w.next, full⟩
              ∧ (∀ i : Fin (LevelDebug + 1),
                  (Init env newFilesWriter jsonConfig opts w).f.writers i.castSucc ≠ none
                    ↔ levelNames i ∈ (env.unmarshalSeparate jsonConfig []).1 ∧ i < j)
              ∧ ∃ a, (Init env newFilesWriter jsonConfig opts w).world.calls.getLast?
                  = some (Call.Init a
                      (dedicatedConfig env full (env.unmarshalMap jsonConfig).1 j) (some err))) := by
  obtain ⟨hw, hfl, -⟩ := Init.formatters_frame env opts newFilesWriter
  have hstored : (∀ elem ∈ opts, elem.Key = "formatter" →
        ∃ formatter, env.GetFormatter elem = .ok formatter) →
      ∀ full, env.fileInit jsonConfig = .ok full →
        (Init env newFilesWriter jsonConfig opts w).f.fullLogWriter = some ⟨w.next, full⟩
          ∧ (Init env newFilesWriter jsonConfig opts w).f.writers (Fin.last (LevelDebug + 1))
              = some ⟨w.next, full⟩ := by
    intro hf full ho
    have hf' := (Init.formatters_ok_iff env opts newFilesWriter).2 hf
    have h1 := Init_new_full env jsonConfig opts w full hf' ho
    refine ⟨h1, ?_⟩
    rw [Init_of_full_ok env _ _ _ _ full hf' ho]
    simp only
    rw [(Init.run_frame _ _ _ _).2.2.2, Init.start_writers_last]
  refine ⟨?_, hstored, ?_⟩
  · intro hfail
    have hstate : (Init env newFilesWriter jsonConfig opts w).err ≠ none
        ∧ (Init env newFilesWriter jsonConfig opts w).f = (Init.formatters env opts newFilesWriter).2 := by
      rcases Init_cases env newFilesWriter jsonConfig opts with ⟨e, he⟩ | ⟨hf, e, he⟩ | ⟨hf, obj, ho⟩
      · rw [Init_of_formatters_error env _ _ _ _ e he]
        exact ⟨by simp, rfl⟩
      · rw [Init_of_full_error env _ _ _ _ e hf he]
        exact ⟨by simp, rfl⟩
      · exfalso
        rcases hfail with ⟨elem, hmem, hkey, err, herr⟩ | ⟨err, herr⟩
        · obtain ⟨formatter, hfm⟩ := (Init.formatters_ok_iff env opts newFilesWriter).1 hf elem hmem hkey
          rw [herr] at hfm
          cases hfm
        · rw [herr] at ho
          cases ho
    obtain ⟨herr, hfeq⟩ := hstate
    have hnone : ∀ i, (Init env newFilesWriter jsonConfig opts w).f.writers i = none := by
      intro i
      rw [hfeq, hw]
      rfl
    have hfull : (Init env newFilesWriter jsonConfig opts w).f.fullLogWriter = none := by
      rw [hfeq, hfl]
      rfl
    exact ⟨herr, hnone, hfull, fun lm w' => empty_router_silent env _ hnone hfull lm w'⟩
  · intro hf full ho j err hj hfail hbefore
    have hf' := (Init.formatters_ok_iff env opts newFilesWriter).2 hf
    obtain ⟨h1, h2, h3⟩ :=
      Init_first_failure env jsonConfig opts w full hf' ho j err hj hfail hbefore
    exact ⟨h1, (hstored hf full ho).1, (hstored hf full ho).2, h2, h3⟩

/-- The statement of C8 as amended, on a `formatter` option that does not resolve, on
a configuration without a file name, and on the debug file that cannot be opened:
there `Init` returns "permission denied" and among the slots 0..7 exactly the one
of `error`, named before `debug`, is non-nil. -/
theorem C8_failed_Init_state_witness :
    (Init (sampleEnv []) newFilesWriter appConfig [⟨"formatter", .string "fancy"⟩] World.empty).err
        = some "unknown formatter"
      ∧ (∀ i, (Init (sampleEnv []) newFilesWriter appConfig [⟨"formatter", .string "fancy"⟩]
                World.empty).f.writers i = none)
      ∧ (Init (sampleEnv []) newFilesWriter (some [("separate", .strings ["error"])]) []
            World.empty).err = some "jsonconfig must have filename"
      ∧ (∀ i, (Init (sampleEnv []) newFilesWriter (some [("separate", .strings ["error"])]) []
                World.empty).f.writers i = none)
      ∧ (lockedRouter.err = some "permission denied"
          ∧ lockedRouter.f.fullLogWriter = some ⟨0, ⟨7, "app", ".log"⟩⟩
          ∧ lockedRouter.f.writers (Fin.last (LevelDebug + 1)) = some ⟨0, ⟨7, "app", ".log"⟩⟩
          ∧ (∀ i : Fin (LevelDebug + 1),
              lockedRouter.f.writers i.castSucc ≠ none
                ↔ levelNames i ∈ ["error", "debug"] ∧ i < 7)
          ∧ ∃ a, lockedRouter.world.calls.getLast?
              = some (Call.Init a
                  (some [("filename", .string "app.debug.log"),
                         ("separate", .strings ["error", "debug"]),
                         ("level", .int 7)]) (some "permission denied"))) :=
  ⟨by decide,
    ((C8_failed_Init_state (sampleEnv []) appConfig [⟨"formatter", .string "fancy"⟩]
      World.empty).1 (Or.inl ⟨⟨"formatter", .string "fancy"⟩, by simp, rfl, _, rfl⟩)).2.1,
    by decide,
    ((C8_failed_Init_state (sampleEnv []) (some [("separate", .strings ["error"])]) []
      World.empty).1 (Or.inr ⟨_, rfl⟩)).2.1,
    (C8_failed_Init_state (sampleEnv ["app.debug.log"]) appConfig [] World.empty).2.2
      (by simp) ⟨7, "app", ".log"⟩ rfl 7 "permission denied" (by decide) rfl
      (by
        intro i hi hmem
        have hcases : i = 3 := by
          revert hmem
          revert hi
          revert i
          decide
        subst hcases
        exact ⟨_, rfl⟩)⟩

end logs
